import Mathlib

/-!
# Duty roster generator (`src/js/roster.js`) and phone numbers (`src/js/config.js`)

A shallow embedding of `generateDutyRoster`, `getWeekdays`, `getDutyTimes` and
`getDutyLocation` of `roster.js`, of `formatPhoneNumber`, `isValidPhoneNumber`,
`hasPermission` and `generateNumber` of `config.js` and of the local
`isValidPhoneNumber` of `students.js`, followed by theorems about them.

Modelling conventions.

* A JavaScript object used as a dictionary is given by its own properties, a
  function from string keys into `Option`.  The objects keyed by a duty type or by a
  role (`dutyCounts[id]` and the static tables of `getDutyTimes`, `getDutyLocation`
  and `APP_CONFIG.permissions`) are object literals: a read finds an own property
  first and a member of `Object.prototype` otherwise, and `__proto__` is an
  accessor, so that a read of it gives the prototype and an assignment of a number
  to it does nothing (`lookupKey`, `putCount`).
* The outer object `dutyCounts` is keyed by the `id` of a staff row and the
  `staff_id` of a history row.  These are keys of the database, taken not to be
  names of members of `Object.prototype`; `none` is `undefined`.
* A count is a natural number or `NaN`; `NaN` arises from `++` on a value that is
  not a number.
* A `Date` is its time value: milliseconds since the epoch, an `Int`.
* A date-only string `YYYY-MM-DD` is the number of that calendar day counted from
  `1970-01-01` (day `0`, a Thursday), an `Int`.  `new Date("YYYY-MM-DD")` is UTC midnight of
  that day, and `toISOString().split('T')[0]` is the UTC calendar day of the time
  value.
* `getDay`, `getDate` and `setDate` work in the local time zone of the browser.  The
  zone is a fixed offset `tz`, in minutes east of UTC, so that
  `setDate(getDate() + 1)` advances the time value by exactly 24 hours.  Zones with
  daylight saving, where that step is 23 or 25 hours on the day of a change, are
  outside the model: every statement below about the dates `getWeekdays` returns is
  a statement about browsers in a zone of fixed offset.
* A store query resolves to `{ data, error }` or rejects; the calls that reach the
  store are recorded in a trace.
-/

set_option autoImplicit false

namespace Roster

/-! ## Data model -/

abbrev StaffId := String

abbrev DutyType := String

/-- Row of `staff` as selected by `select('id, first_name, last_name')`. -/
structure StaffMember where
  id : StaffId
  first_name : String
  last_name : String
  deriving DecidableEq

/-- Row of `duty_roster` as selected by `select('staff_id, duty_type')`. -/
structure DutyRecord where
  staff_id : StaffId
  duty_type : DutyType
  deriving DecidableEq

/-! ## Object literals -/

/-- The property names of `Object.prototype`, which every object literal inherits. -/
def objectPrototypeNames : List String :=
  ["constructor", "__proto__", "hasOwnProperty", "isPrototypeOf", "propertyIsEnumerable",
    "toLocaleString", "toString", "valueOf", "__defineGetter__", "__defineSetter__",
    "__lookupGetter__", "__lookupSetter__"]

/-- Result of the read `obj[key]` on an object literal whose own values have type
`α`.  `inherited name` is the member `name` of `Object.prototype`: a function, or
the prototype object itself for `__proto__`; it is truthy, it is not a number, and
it has no property `start`, `end` or `includes`. -/
inductive Lookup (α : Type) where
  | undefined
  | own (a : α)
  | inherited (name : String)
  deriving DecidableEq

/-- The read `obj[key]`, where `obj` is an object literal with the given own
properties. -/
def lookupKey {α : Type} (obj : String → Option α) (key : String) : Lookup α :=
  if key = "__proto__" then .inherited key
  else
    match obj key with
    | some a => .own a
    | none => if key ∈ objectPrototypeNames then .inherited key else .undefined

/-- The expression `value || fallback` for a value read from a table whose own values
are all truthy (non-empty strings, objects, arrays). -/
def orDefault {α : Type} (value : Lookup α) (fallback : α) : Lookup α :=
  match value with
  | .undefined => .own fallback
  | v => v

/-- A count as JavaScript holds it: a natural number or `NaN`.  The number is exact;
JavaScript agrees while it stays below `2 ^ 53`. -/
inductive JsNumber where
  | num (n : Nat)
  | nan
  deriving DecidableEq

/-- The value of `x + 1` for the operator `++`. -/
def JsNumber.succ : JsNumber → JsNumber
  | .num n => .num (n + 1)
  | .nan => .nan

/-- Object pushed onto `roster`.  `start_time` and `end_time` are `none` when
`times.start` and `times.end` are `undefined`. -/
structure DutyAssignment where
  school_id : String
  staff_id : StaffId
  duty_type : DutyType
  duty_date : Int
  start_time : Option String
  end_time : Option String
  location : Lookup String
  deriving DecidableEq

/-- Own properties of an inner object `dutyCounts[id]`: duty type to count. -/
abbrev TypeCounts := DutyType → Option JsNumber

/-- The object `dutyCounts`: staff id to inner object. -/
abbrev DutyCounts := StaffId → Option TypeCounts

/-- The literal `{}`. -/
def emptyCounts : DutyCounts := fun _ => none

/-- The assignment `dutyCounts[id] = {}`. -/
def resetStaff (dc : DutyCounts) (id : StaffId) : DutyCounts :=
  fun i => if i = id then some (fun _ => none) else dc i

/-- The read `o[type]` on an inner object. -/
def getCount (o : TypeCounts) (type : DutyType) : Lookup JsNumber := lookupKey o type

/-- The assignment `o[type] = v` of a number on an inner object: for `__proto__` the
setter of `Object.prototype` is called, which ignores a value that is not an object;
every other key becomes an own property. -/
def putCount (o : TypeCounts) (type : DutyType) (v : JsNumber) : TypeCounts :=
  if type = "__proto__" then o else fun u => if u = type then some v else o u

/-- `ToNumber` of what a read of a counter gives: `undefined`, a function and the
prototype object all convert to `NaN`. -/
def toNumber : Lookup JsNumber → JsNumber
  | .own v => v
  | _ => .nan

/-- The assignment `dutyCounts[id][type] = v` (on an existing inner object). -/
def setCount (dc : DutyCounts) (id : StaffId) (type : DutyType) (v : JsNumber) : DutyCounts :=
  fun i => if i = id then (dc i).map (fun o => putCount o type v) else dc i

/-- The statement `dutyCounts[id][type]++` (on an existing inner object): the value
read, converted to a number, plus one, is assigned back. -/
def incrementCount (dc : DutyCounts) (id : StaffId) (type : DutyType) : DutyCounts :=
  fun i =>
    if i = id then (dc i).map (fun o => putCount o type (toNumber (getCount o type)).succ)
    else dc i

/-- The operand `dutyCounts[id][type]` of the subtraction in the comparator, converted
to a number.  A missing inner object is a `TypeError` in the source; `assignDuty`
excludes it before the comparator is used. -/
def readNumber (dc : DutyCounts) (id : StaffId) (type : DutyType) : JsNumber :=
  match dc id with
  | none => .nan
  | some o => toNumber (getCount o type)

/-- The read `dutyCounts[id][type]` when it gives a natural number; `none` when the
inner object is missing or the value read is not such a number. -/
def readCount (dc : DutyCounts) (id : StaffId) (type : DutyType) : Option Nat :=
  match readNumber dc id type with
  | .num n => some n
  | .nan => none

/-! ## Duty metadata -/

structure DutyTimes where
  start : String
  stop : String
  deriving DecidableEq

/-- Own properties of the object literal `times` of `getDutyTimes`; the field `end` is
called `stop` here. -/
def dutyTimesTable (dutyType : DutyType) : Option DutyTimes :=
  if dutyType = "morning_duty" then some ⟨"07:00", "08:00"⟩
  else if dutyType = "lunch_duty" then some ⟨"12:00", "13:00"⟩
  else if dutyType = "games_duty" then some ⟨"15:00", "16:00"⟩
  else if dutyType = "closing_duty" then some ⟨"16:00", "17:00"⟩
  else none

/-- Source: `getDutyTimes`, the expression `times[dutyType] || { start: '07:00', end:
'08:00' }`. -/
def getDutyTimes (dutyType : DutyType) : Lookup DutyTimes :=
  orDefault (lookupKey dutyTimesTable dutyType) ⟨"07:00", "08:00"⟩

/-- The read `times.start` on the value returned by `getDutyTimes`; `none` is
`undefined`. -/
def Lookup.start (times : Lookup DutyTimes) : Option String :=
  match times with
  | .own t => some t.start
  | _ => none

/-- The read `times.end` on the value returned by `getDutyTimes`; `none` is
`undefined`. -/
def Lookup.stop (times : Lookup DutyTimes) : Option String :=
  match times with
  | .own t => some t.stop
  | _ => none

/-- Own properties of the object literal `locations` of `getDutyLocation`. -/
def dutyLocationsTable (dutyType : DutyType) : Option String :=
  if dutyType = "morning_duty" then some "Main Gate"
  else if dutyType = "lunch_duty" then some "Dining Hall"
  else if dutyType = "games_duty" then some "Sports Field"
  else if dutyType = "closing_duty" then some "Main Gate"
  else none

/-- Source: `getDutyLocation`, the expression `locations[dutyType] || 'School
Compound'`. -/
def getDutyLocation (dutyType : DutyType) : Lookup String :=
  orDefault (lookupKey dutyLocationsTable dutyType) "School Compound"

/-! ## Working days -/

def MS_PER_DAY : Int := 86400000

def MS_PER_MINUTE : Int := 60000

/-- Time value of `new Date("YYYY-MM-DD")`: UTC midnight of the day. -/
def newDate (d : Int) : Int := d * MS_PER_DAY

/-- Day of the week of a calendar day, `0` = Sunday .. `6` = Saturday. -/
def weekdayOf (d : Int) : Int := (d + 4) % 7

/-- `Date.prototype.getDay`: day of the week of the local calendar day. -/
def getDay (tz : Int) (t : Int) : Int := weekdayOf ((t + tz * MS_PER_MINUTE) / MS_PER_DAY)

/-- `toISOString().split('T')[0]`: the UTC calendar day. -/
def toISODate (t : Int) : Int := t / MS_PER_DAY

/-- `current.setDate(current.getDate() + 1)`: the same local time on the next local
day, which in a zone of fixed offset is 24 hours later. -/
def nextDay (t : Int) : Int := t + MS_PER_DAY

/-- The `while (current <= end)` loop of `getWeekdays`; `fuel` bounds the number of
iterations. -/
def getWeekdaysLoop (tz : Int) (stop : Int) : Nat → Int → List Int → List Int
  | 0, _, dates => dates
  | fuel + 1, current, dates =>
    if current ≤ stop then
      let day := getDay tz current
      let dates1 := if day ≠ 0 ∧ day ≠ 6 then dates ++ [toISODate current] else dates
      getWeekdaysLoop tz stop fuel (nextDay current) dates1
    else dates

/-- Source: `getWeekdays`.  The loop runs `endDate - startDate + 1` times when
`startDate ≤ endDate` and not at all otherwise, which is the fuel given. -/
def getWeekdays (tz : Int) (startDate endDate : Int) : List Int :=
  getWeekdaysLoop tz (newDate endDate) (endDate - startDate + 1).toNat (newDate startDate) []

/-! ## Counting -/

/-- The first `forEach` of `generateDutyRoster`: every staff member gets a fresh
inner object, and `0` is assigned in it for every requested duty type. -/
def initCounts (staff : List StaffMember) (dutyTypes : List DutyType) : DutyCounts :=
  staff.foldl
    (fun dc s =>
      dutyTypes.foldl (fun dc1 type => setCount dc1 s.id type (.num 0)) (resetStaff dc s.id))
    emptyCounts

/-- Body of `recentDuties?.forEach`: the increment is made when the inner object
exists and the read `dutyCounts[d.staff_id][d.duty_type]` is not `undefined`. -/
def tallyDuty (dc : DutyCounts) (d : DutyRecord) : DutyCounts :=
  match dc d.staff_id with
  | none => dc
  | some o =>
    match getCount o d.duty_type with
    | .undefined => dc
    | _ => incrementCount dc d.staff_id d.duty_type

/-- The statement `recentDuties?.forEach(...)`; `none` is a `null` history. -/
def countHistory (dc : DutyCounts) (recentDuties : Option (List DutyRecord)) : DutyCounts :=
  match recentDuties with
  | none => dc
  | some ds => ds.foldl tallyDuty dc

/-! ## Selection -/

/-- Insertion of one element in front of the first element it does not compare
greater than. -/
def insertBy {α : Type} (cmp : α → α → Int) (a : α) : List α → List α
  | [] => [a]
  | b :: l => if cmp a b ≤ 0 then a :: b :: l else b :: insertBy cmp a l

/-- `Array.prototype.sort(cmp)` on a copy: a stable sort (ECMAScript 2019), here by
insertion from the right. -/
def sortBy {α : Type} (cmp : α → α → Int) : List α → List α
  | [] => []
  | a :: l => insertBy cmp a (sortBy cmp l)

/-- The count of a staff member for a duty type, `0` when the read gives no number. -/
def countOf (dc : DutyCounts) (dutyType : DutyType) (s : StaffMember) : Nat :=
  (readCount dc s.id dutyType).getD 0

/-- The comparator `(a, b) => dutyCounts[a.id][dutyType] - dutyCounts[b.id][dutyType]`
as `sort` uses it: a difference that is `NaN` counts as `0`.  In the states a run
reaches the counts of the staff for a requested duty type are all numbers or all
not numbers (`uniform_of_ready`), so the comparator is a consistent ordering and
every stable sort returns the same array. -/
def compareCounts (dc : DutyCounts) (dutyType : DutyType) (a b : StaffMember) : Int :=
  match readNumber dc a.id dutyType, readNumber dc b.id dutyType with
  | .num x, .num y => (x : Int) - (y : Int)
  | _, _ => 0

/-- Loop state: the counters and the roster built so far. -/
abbrev LoopState := DutyCounts × List DutyAssignment

/-- Body of the inner `forEach`: one assignment step.  `none` stands for a
`TypeError`: a staff member without an inner object in `dutyCounts`, or an empty
`sortedStaff`. -/
def assignDuty (school_id : String) (staff : List StaffMember) (st : LoopState)
    (date : Int) (dutyType : DutyType) : Option LoopState :=
  if staff.all (fun s => (st.1 s.id).isSome) then
    match sortBy (compareCounts st.1 dutyType) staff with
    | [] => none
    | assignedStaff :: _ =>
      let times := getDutyTimes dutyType
      some (incrementCount st.1 assignedStaff.id dutyType,
        st.2 ++ [{ school_id := school_id
                   staff_id := assignedStaff.id
                   duty_type := dutyType
                   duty_date := date
                   start_time := times.start
                   end_time := times.stop
                   location := getDutyLocation dutyType }])
  else none

/-- The nested `days.forEach(date => dutyTypes.forEach(dutyType => ...))`. -/
def assignAll (school_id : String) (staff : List StaffMember) (days : List Int)
    (dutyTypes : List DutyType) (st : LoopState) : Option LoopState :=
  days.foldlM
    (fun st1 date =>
      dutyTypes.foldlM (fun st2 dutyType => assignDuty school_id staff st2 date dutyType) st1)
    st

/-- The synchronous part of `generateDutyRoster` between the reads and the insert:
the counters after the run and the batch `roster`. -/
def buildRoster (school_id : String) (staff : List StaffMember)
    (recentDuties : Option (List DutyRecord)) (tz : Int) (startDate endDate : Int)
    (dutyTypes : List DutyType) : Option LoopState :=
  assignAll school_id staff (getWeekdays tz startDate endDate) dutyTypes
    (countHistory (initCounts staff dutyTypes) recentDuties, [])

/-- The flattened iteration order of the nested loops: every working day, and within
a day every duty type. -/
def stepList (days : List Int) (dutyTypes : List DutyType) : List (Int × DutyType) :=
  days.flatMap (fun date => dutyTypes.map (fun dutyType => (date, dutyType)))

/-- A run of assignment steps, one after the other. -/
def runSteps (school_id : String) (staff : List StaffMember)
    (steps : List (Int × DutyType)) (st : LoopState) : Option LoopState :=
  steps.foldlM (fun st1 step => assignDuty school_id staff st1 step.1 step.2) st

/-! ## The asynchronous shell -/

/-- A thrown value or a store error: only `message` is read. -/
structure JsError where
  message : String
  deriving DecidableEq

/-- Outcome of awaiting a store query: it resolves to `{ data, error }` or the
promise rejects. -/
inductive Reply (α : Type) where
  | resolved (data : Option α) (error : Option JsError)
  | rejected (e : JsError)

/-- The profile returned by `getCurrentUser`; only `school_id` is read. -/
structure UserProfile where
  school_id : String
  deriving DecidableEq

/-- A query that reaches the store. -/
inductive StoreCall where
  | selectStaff (school_id : String)
  | selectHistory (school_id : String)
  | insertRoster (rows : List DutyAssignment)
  deriving DecidableEq

/-- The object returned by `generateDutyRoster`. -/
inductive GenResult where
  | success (count : Nat) (message : String)
  | failure (error : String)
  deriving DecidableEq

/-- The argument `params`. -/
structure Params where
  startDate : Int
  endDate : Int
  dutyTypes : List DutyType

/-- Everything outside the function that one invocation depends on.
`currentUser` is `none` when `getCurrentUser` returns `null` (it never throws). -/
structure World where
  tz : Int
  currentUser : Option UserProfile
  staffReply : Reply (List StaffMember)
  historyReply : Reply (List DutyRecord)
  insertReply : List DutyAssignment → Reply (List DutyAssignment)

/-- Message of the `TypeError` of `currentUser.school_id` on `null` (V8 wording). -/
def nullUserMessage : String := "Cannot read properties of null (reading 'school_id')"

/-- Message of the `TypeError` of `data.length` on `null` (V8 wording). -/
def nullDataMessage : String := "Cannot read properties of null (reading 'length')"

/-- Message of a `TypeError` raised inside the loops. -/
def loopErrorMessage : String := "Cannot read properties of undefined (reading 'id')"

/-- The error of the `!staff || staff.length === 0` branch. -/
def noStaffMessage : String := "No active staff available"

/-- Source: `generateDutyRoster`.  Returns the result object and the store calls
made, in order. -/
def generateDutyRoster (w : World) (params : Params) : GenResult × List StoreCall :=
  match w.currentUser with
  | none => (.failure nullUserMessage, [])
  | some currentUser =>
    match w.staffReply with
    | .rejected e => (.failure e.message, [.selectStaff currentUser.school_id])
    | .resolved none _ => (.failure noStaffMessage, [.selectStaff currentUser.school_id])
    | .resolved (some staff) _ =>
      if staff.length = 0 then
        (.failure noStaffMessage, [.selectStaff currentUser.school_id])
      else
        match w.historyReply with
        | .rejected e =>
          (.failure e.message,
            [.selectStaff currentUser.school_id, .selectHistory currentUser.school_id])
        | .resolved recentDuties _ =>
          match buildRoster currentUser.school_id staff recentDuties w.tz
              params.startDate params.endDate params.dutyTypes with
          | none =>
            (.failure loopErrorMessage,
              [.selectStaff currentUser.school_id, .selectHistory currentUser.school_id])
          | some (_, roster) =>
            let calls := [StoreCall.selectStaff currentUser.school_id,
              StoreCall.selectHistory currentUser.school_id, StoreCall.insertRoster roster]
            match w.insertReply roster with
            | .rejected e => (.failure e.message, calls)
            | .resolved _ (some error) => (.failure error.message, calls)
            | .resolved none none => (.failure nullDataMessage, calls)
            | .resolved (some data) none =>
              (.success data.length
                ("Generated " ++ toString data.length ++ " duty assignments"), calls)

/-- Number of bulk inserts among the store calls. -/
def insertCount (calls : List StoreCall) : Nat :=
  (calls.filter (fun c => match c with | .insertRoster _ => true | _ => false)).length

/-! ## Notions used to state the properties -/

/-- Linear scan that keeps the first minimum seen, in list order. -/
def firstMinScan {α : Type} (key : α → Nat) : List α → Option α
  | [] => none
  | a :: l => some (l.foldl (fun best s => if key s < key best then s else best) a)

/-- Largest value of `f` over a list (`0` on the empty list). -/
def maxOver {α : Type} (f : α → Nat) : List α → Nat
  | [] => 0
  | a :: l => max (f a) (maxOver f l)

/-- Smallest value of `f` over a list (`0` on the empty list). -/
def minOver {α : Type} (f : α → Nat) : List α → Nat
  | [] => 0
  | [a] => f a
  | a :: b :: l => min (f a) (minOver f (b :: l))

/-- Maximum count minus minimum count over the staff, for one duty type. -/
def spread (dc : DutyCounts) (dutyType : DutyType) (staff : List StaffMember) : Nat :=
  maxOver (countOf dc dutyType) staff - minOver (countOf dc dutyType) staff

/-- Number of history rows of one staff id and duty type. -/
def historyCount (recentDuties : Option (List DutyRecord)) (id : StaffId) (t : DutyType) : Nat :=
  ((recentDuties.getD []).filter (fun d => decide (d.staff_id = id ∧ d.duty_type = t))).length

/-- Number of generated records of one staff id and duty type. -/
def assignedCount (roster : List DutyAssignment) (id : StaffId) (t : DutyType) : Nat :=
  (roster.filter (fun r => decide (r.staff_id = id ∧ r.duty_type = t))).length

/-- Number of generated records of one date and duty type. -/
def slotCount (roster : List DutyAssignment) (date : Int) (t : DutyType) : Nat :=
  (roster.filter (fun r => decide (r.duty_date = date ∧ r.duty_type = t))).length

/-- Position of `s` in `l` as a first minimum of `key`: everything before it is
strictly larger, everything after it is at least as large. -/
def IsFirstMin {α : Type} (key : α → Nat) (l : List α) (s : α) : Prop :=
  ∃ before after, l = before ++ s :: after ∧
    (∀ x ∈ before, key s < key x) ∧ (∀ x ∈ after, key s ≤ key x)

/-- Every staff member has an inner object in `dutyCounts`, with a numeric count for
every requested duty type other than `__proto__`. -/
def Ready (staff : List StaffMember) (dutyTypes : List DutyType) (dc : DutyCounts) : Prop :=
  ∀ s ∈ staff, (dc s.id).isSome = true ∧
    ∀ t ∈ dutyTypes, t ≠ "__proto__" → (readCount dc s.id t).isSome = true

/-- The counts of the staff for a duty type are all numbers, or none of them is. -/
def Uniform (dc : DutyCounts) (t : DutyType) (staff : List StaffMember) : Prop :=
  ∀ a ∈ staff, ∀ b ∈ staff, (readCount dc a.id t).isSome = (readCount dc b.id t).isSome

/-- The record pushed for a chosen staff member. -/
def assignmentOf (school_id : String) (s : StaffMember) (date : Int) (dutyType : DutyType) :
    DutyAssignment :=
  { school_id := school_id
    staff_id := s.id
    duty_type := dutyType
    duty_date := date
    start_time := (getDutyTimes dutyType).start
    end_time := (getDutyTimes dutyType).stop
    location := getDutyLocation dutyType }

/-- The (date, duty type) slot of a record. -/
def slotOf (r : DutyAssignment) : Int × DutyType := (r.duty_date, r.duty_type)

/-! ## Example inputs and further notions -/

/-- Staff of the example of the specification: A, B and C, in this order. -/
def exampleStaff : List StaffMember :=
  [⟨"A", "Akinyi", "A"⟩, ⟨"B", "Baraka", "B"⟩, ⟨"C", "Chebet", "C"⟩]

/-- History giving A, B and C the lunch-duty counts 2, 0 and 1. -/
def exampleHistory : List DutyRecord :=
  [⟨"A", "lunch_duty"⟩, ⟨"C", "lunch_duty"⟩, ⟨"A", "lunch_duty"⟩]

/-- The counters before the first assignment of a run. -/
def startState (staff : List StaffMember) (recentDuties : Option (List DutyRecord))
    (dutyTypes : List DutyType) : LoopState :=
  (countHistory (initCounts staff dutyTypes) recentDuties, [])

/-- Example input: the same duty type requested twice. -/
def repeatedTypes : List DutyType := ["lunch_duty", "lunch_duty"]

/-- What `generateDutyRoster` returns once the insert has been awaited. -/
def insertOutcome (r : Reply (List DutyAssignment)) : GenResult :=
  match r with
  | .rejected e => .failure e.message
  | .resolved _ (some error) => .failure error.message
  | .resolved none none => .failure nullDataMessage
  | .resolved (some data) none =>
    .success data.length ("Generated " ++ toString data.length ++ " duty assignments")

/-- Example world: user of school `school`, the example staff and history, a store
that accepts every batch, local time UTC+3. -/
def exampleWorld : World :=
  { tz := 180
    currentUser := some ⟨"school"⟩
    staffReply := .resolved (some exampleStaff) none
    historyReply := .resolved (some exampleHistory) none
    insertReply := fun rows => .resolved (some rows) none }

/-- The example world with a history read that the store refuses: the reply carries
an error and `data` is `null`. -/
def historyErrorWorld : World :=
  { exampleWorld with
    historyReply := .resolved none (some ⟨"permission denied for table duty_roster"⟩) }

/-- The example world with a store that refuses every insert. -/
def insertErrorWorld : World :=
  { exampleWorld with
    insertReply := fun _ => .resolved none (some ⟨"duplicate key value"⟩) }

/-- The example world with a staff read that returns no rows. -/
def noStaffWorld : World :=
  { exampleWorld with staffReply := .resolved (some []) none }

/-- A record as the store could report it: the first example record, relocated. -/
def relocatedRecord : DutyAssignment :=
  ⟨"school", "A", "lunch_duty", 19723, some "12:00", some "13:00", .own "Staff Room"⟩

/-- The example world with a store that reports one relocated record as
persisted, whatever it was sent. -/
def relocatingWorld : World :=
  { exampleWorld with insertReply := fun _ => .resolved (some [relocatedRecord]) none }

/-- The example world seen from a browser five hours west of UTC. -/
def westernWorld : World := { exampleWorld with tz := -300 }

/-- The calendar days from `startDate` to `endDate`, both included, ascending. -/
def dayRange (startDate endDate : Int) : List Int :=
  (List.range (endDate - startDate + 1).toNat).map (fun (i : Nat) => startDate + (i : Int))

/-- Monday to Friday. -/
def isWorkingDay (d : Int) : Bool := decide (weekdayOf d ≠ 0 ∧ weekdayOf d ≠ 6)

/-- The rows of the bulk insert among the store calls of a run. -/
def insertedBatch (calls : List StoreCall) : Option (List DutyAssignment) :=
  calls.findSome? (fun c => match c with | .insertRoster rows => some rows | _ => none)

/-! ## Phone numbers (`src/js/config.js`)

A JavaScript string is the sequence of its characters; `null` and `undefined` are
`none`. -/

/-- `s.startsWith(pre)` on character sequences. -/
def startsWith : List Char → List Char → Bool
  | _, [] => true
  | [], _ :: _ => false
  | c :: s, p :: pre => c == p && startsWith s pre

/-- `phone.replace(/\D/g, '')`: the ASCII digits of the string, in order. -/
def digitsOf (phone : String) : List Char := phone.toList.filter Char.isDigit

/-- Source: `formatPhoneNumber` of `config.js`. -/
def formatPhoneNumber (phone : Option String) : Option String :=
  match phone with
  | none => none
  | some phone =>
    if phone = "" then none
    else
      let cleaned := digitsOf phone
      if startsWith cleaned ['2', '5', '4'] then
        some (String.mk ('+' :: cleaned))
      else if startsWith cleaned ['0'] then
        some (String.mk (['+', '2', '5', '4'] ++ cleaned.drop 1))
      else if startsWith cleaned ['7'] || startsWith cleaned ['1'] then
        some (String.mk (['+', '2', '5', '4'] ++ cleaned))
      else
        some (String.mk ('+' :: cleaned))

/-- The test of the regular expression `/^\+254[71]\d{8}$/`: the literal `+254`, one
of `7` and `1`, then eight digits and the end of the string. -/
def matchesKenyanMobile (s : List Char) : Bool :=
  startsWith s ['+', '2', '5', '4'] &&
    (match s.drop 4 with
     | [] => false
     | c :: rest => (c == '7' || c == '1') && rest.length == 8 && rest.all Char.isDigit)

/-- Source: `isValidPhoneNumber` of `config.js`. -/
def isValidPhoneNumber (phone : Option String) : Bool :=
  match formatPhoneNumber phone with
  | none => false
  | some formatted => matchesKenyanMobile formatted.toList

/-! ## Permissions, generated numbers and the local phone check

`hasPermission` and `generateNumber` of `src/js/config.js`, and the local
`isValidPhoneNumber` of `src/js/students.js`. -/

/-- Own properties of the object literal `APP_CONFIG.permissions`: role to permission
list. -/
def permissions (role : String) : Option (List String) :=
  if role = "super_admin" then some ["all"]
  else if role = "school_admin" then
    some ["students", "staff", "fees", "academic", "finance", "communication", "settings"]
  else if role = "teacher" then some ["students", "academic"]
  else if role = "accountant" then some ["fees", "finance"]
  else if role = "support" then some ["students"]
  else none

/-- Source: `hasPermission` of `config.js`.  `none` is the `TypeError` of calling
`userPermissions.includes` on a value that has no such method. -/
def hasPermission (userRole requiredPermission : String) : Option Bool :=
  match orDefault (lookupKey permissions userRole) [] with
  | .own userPermissions =>
    some (userPermissions.contains "all" || userPermissions.contains requiredPermission)
  | _ => none

/-- `parseInt` of a string of ASCII digits: `none` is `NaN` (no digit at all).  The
value is exact; JavaScript agrees while it stays below `2 ^ 53`. -/
def parseDigits (ds : List Char) : Option Nat :=
  match ds with
  | [] => none
  | _ :: _ => some (ds.foldl (fun acc c => acc * 10 + (c.toNat - '0'.toNat)) 0)

/-- `s.padStart(n, '0')`. -/
def padStartZero (n : Nat) (s : List Char) : List Char :=
  List.replicate (n - s.length) '0' ++ s

/-- `s.slice(-2)`: the last two characters (all of a shorter string). -/
def sliceLastTwo (s : List Char) : List Char := s.drop (s.length - 2)

/-- Source: `generateNumber` of `config.js`.  `reply` is the answer to the query for
the highest existing number (one column, at most one row; a `null` column value is
`none`), `year` is `new Date().getFullYear()`.  `none` is the `null` of the `catch`
branch. -/
def generateNumber (reply : Reply (List (Option String))) (year : Nat) (type : String) :
    Option String :=
  let format := fun (nextNumber : Nat) =>
    let yy := sliceLastTwo (toString year).toList
    let pre := if type = "learner" then "STD" else "STF"
    some (pre ++ String.mk yy ++ String.mk (padStartZero 4 (toString nextNumber).toList))
  match reply with
  | .rejected _ => none
  | .resolved _ (some _) => none
  | .resolved none none => format 1
  | .resolved (some []) none => format 1
  | .resolved (some (none :: _)) none => none
  | .resolved (some (some lastNumber :: _)) none =>
    match parseDigits (digitsOf lastNumber) with
    | none => format 1
    | some numPart => format (numPart + 1)

/-- Source: the local `isValidPhoneNumber` of `students.js`. -/
def Students.isValidPhoneNumber (phone : Option String) : Bool :=
  match phone with
  | none => false
  | some phone =>
    if phone = "" then false
    else
      let cleaned := digitsOf phone
      decide (cleaned.length ≥ 10 ∧ cleaned.length ≤ 13)

/-! # Theorems -/

/-! ## Reading a counter -/

theorem readCount_eq_some (dc : DutyCounts) (id : StaffId) (t : DutyType) (n : Nat) :
    readCount dc id t = some n ↔ readNumber dc id t = .num n := by
  unfold readCount
  cases readNumber dc id t <;> simp

theorem readCount_eq_none (dc : DutyCounts) (id : StaffId) (t : DutyType) :
    readCount dc id t = none ↔ readNumber dc id t = .nan := by
  unfold readCount
  cases readNumber dc id t <;> simp

/-- A read of `__proto__` on an object literal gives the prototype, whatever has been
assigned. -/
theorem getCount_proto (o : TypeCounts) : getCount o "__proto__" = .inherited "__proto__" := by
  simp [getCount, lookupKey]

/-- The key `__proto__` never holds a number. -/
theorem readCount_proto (dc : DutyCounts) (id : StaffId) : readCount dc id "__proto__" = none := by
  unfold readCount readNumber
  cases dc id with
  | none => rfl
  | some o => simp [getCount_proto, toNumber]

theorem readCount_of_missing (dc : DutyCounts) (id : StaffId) (t : DutyType)
    (h : dc id = none) : readCount dc id t = none := by
  unfold readCount readNumber
  rw [h]

theorem isSome_of_readCount (dc : DutyCounts) (id : StaffId) (t : DutyType)
    (h : (readCount dc id t).isSome = true) : (dc id).isSome = true := by
  cases hd : dc id with
  | none => rw [readCount_of_missing dc id t hd] at h; simp at h
  | some o => rfl

/-! ## Selection: the head of the stable sort is the first minimum -/

/-- When both counts are numbers, or neither is, the comparator orders by `countOf`. -/
theorem compareCounts_le_zero (dc : DutyCounts) (t : DutyType) (a b : StaffMember)
    (h : (readCount dc a.id t).isSome = (readCount dc b.id t).isSome) :
    compareCounts dc t a b ≤ 0 ↔ countOf dc t a ≤ countOf dc t b := by
  unfold compareCounts countOf
  unfold readCount at h ⊢
  cases ha : readNumber dc a.id t <;> cases hb : readNumber dc b.id t <;>
    simp [ha, hb] at h ⊢

theorem head_insertBy {α : Type} (cmp : α → α → Int) (a : α) (l : List α) :
    (insertBy cmp a l).head? =
      match l.head? with
      | none => some a
      | some b => if cmp a b ≤ 0 then some a else some b := by
  cases l with
  | nil => rfl
  | cons b l =>
    simp only [insertBy, List.head?_cons]
    split <;> rfl

theorem IsFirstMin.le {α : Type} {key : α → Nat} {l : List α} {s : α}
    (h : IsFirstMin key l s) : ∀ x ∈ l, key s ≤ key x := by
  obtain ⟨before, after, rfl, hb, ha⟩ := h
  intro x hx
  simp only [List.mem_append, List.mem_cons] at hx
  rcases hx with hx | rfl | hx
  · exact Nat.le_of_lt (hb x hx)
  · exact Nat.le_refl _
  · exact ha x hx

theorem IsFirstMin.mem {α : Type} {key : α → Nat} {l : List α} {s : α}
    (h : IsFirstMin key l s) : s ∈ l := by
  obtain ⟨before, after, rfl, -, -⟩ := h
  simp

theorem IsFirstMin.unique {α : Type} {key : α → Nat} {l : List α} {s s' : α}
    (h : IsFirstMin key l s) (h' : IsFirstMin key l s') : s = s' := by
  have hle := h.le
  have hle' := h'.le
  obtain ⟨b, a, rfl, hb, ha⟩ := h
  obtain ⟨b', a', heq, hb', ha'⟩ := h'
  rcases List.append_eq_append_iff.mp heq with ⟨m, hm, hm'⟩ | ⟨m, hm, hm'⟩
  · cases m with
    | nil => simp at hm'; exact hm'.1
    | cons y m =>
      simp only [List.cons_append, List.cons.injEq] at hm'
      have : s ∈ b' := by rw [hm, hm'.1]; simp
      have h1 := hb' s this
      have h2 := hle s' (by rw [heq]; simp)
      omega
  · cases m with
    | nil => simp at hm'; exact hm'.1.symm
    | cons y m =>
      simp only [List.cons_append, List.cons.injEq] at hm'
      have : s' ∈ b := by rw [hm, hm'.1]; simp
      have h1 := hb s' this
      have h2 := hle' s (by simp)
      omega

theorem head_sortBy_isFirstMin {α : Type} (cmp : α → α → Int) (key : α → Nat)
    (P : α → Prop) (hcmp : ∀ a b, P a → P b → (cmp a b ≤ 0 ↔ key a ≤ key b))
    (l : List α) (hP : ∀ x ∈ l, P x) (hl : l ≠ []) :
    ∃ s, (sortBy cmp l).head? = some s ∧ IsFirstMin key l s := by
  induction l with
  | nil => exact absurd rfl hl
  | cons a l ih =>
    cases l with
    | nil => exact ⟨a, rfl, [], [], rfl, by simp, by simp⟩
    | cons b l =>
      obtain ⟨h, hh, hmin⟩ := ih (fun x hx => hP x (List.mem_cons_of_mem _ hx)) (by simp)
      have hPa : P a := hP a (List.mem_cons_self _ _)
      have hPh : P h := hP h (List.mem_cons_of_mem _ hmin.mem)
      simp only [sortBy] at hh ⊢
      rw [head_insertBy, hh]
      by_cases hc : cmp a h ≤ 0
      · refine ⟨a, by simp [hc], [], b :: l, rfl, by simp, ?_⟩
        intro x hx
        exact Nat.le_trans ((hcmp a h hPa hPh).mp hc) (hmin.le x hx)
      · refine ⟨h, by simp [hc], ?_⟩
        have hlt : key h < key a := by
          have := (hcmp a h hPa hPh).not.mp hc
          omega
        obtain ⟨before, after, heq, hb, ha⟩ := hmin
        refine ⟨a :: before, after, by rw [heq]; rfl, ?_, ha⟩
        intro x hx
        rcases List.mem_cons.mp hx with rfl | hx
        · exact hlt
        · exact hb x hx

theorem foldl_scan_isFirstMin {α : Type} (key : α → Nat) (l done : List α) (best : α)
    (h : IsFirstMin key done best) :
    IsFirstMin key (done ++ l)
      (l.foldl (fun best s => if key s < key best then s else best) best) := by
  induction l generalizing done best with
  | nil => simpa using h
  | cons s l ih =>
    simp only [List.foldl_cons]
    have hstep : IsFirstMin key (done ++ [s]) (if key s < key best then s else best) := by
      by_cases hc : key s < key best
      · simp only [hc, if_true]
        refine ⟨done, [], rfl, ?_, by simp⟩
        intro x hx
        exact Nat.lt_of_lt_of_le hc (h.le x hx)
      · simp only [hc, if_false]
        obtain ⟨before, after, heq, hb, ha⟩ := h
        refine ⟨before, after ++ [s], by rw [heq]; simp, hb, ?_⟩
        intro x hx
        rcases List.mem_append.mp hx with hx | hx
        · exact ha x hx
        · simp at hx; subst hx; omega
    have := ih (done ++ [s]) _ hstep
    simpa using this

theorem firstMinScan_isFirstMin {α : Type} (key : α → Nat) (l : List α) (hl : l ≠ []) :
    ∃ s, firstMinScan key l = some s ∧ IsFirstMin key l s := by
  cases l with
  | nil => exact absurd rfl hl
  | cons a l =>
    refine ⟨_, rfl, ?_⟩
    have := foldl_scan_isFirstMin key l [a] a ⟨[], [], rfl, by simp, by simp⟩
    simpa using this

theorem uniform_of_ready (staff : List StaffMember) (types : List DutyType) (dc : DutyCounts)
    (h : Ready staff types dc) (t : DutyType) (ht : t ∈ types) : Uniform dc t staff := by
  intro a ha b hb
  by_cases hp : t = "__proto__"
  · subst hp
    rw [readCount_proto, readCount_proto]
  · rw [(h a ha).2 t ht hp, (h b hb).2 t ht hp]

/-- The head of the sort by count is the first minimum of the counts. -/
theorem head_sortBy_counts (dc : DutyCounts) (t : DutyType) (staff : List StaffMember)
    (hu : Uniform dc t staff) (hstaff : staff ≠ []) :
    ∃ s, (sortBy (compareCounts dc t) staff).head? = some s ∧
      IsFirstMin (countOf dc t) staff s :=
  head_sortBy_isFirstMin (compareCounts dc t) (countOf dc t) (fun x => x ∈ staff)
    (fun a b ha hb => compareCounts_le_zero dc t a b (hu a ha b hb)) staff (fun _ hx => hx) hstaff

/-- The head of the sort by count is the result of the linear scan. -/
theorem head_sortBy_eq_firstMinScan (dc : DutyCounts) (t : DutyType) (staff : List StaffMember)
    (hu : Uniform dc t staff) :
    (sortBy (compareCounts dc t) staff).head? = firstMinScan (countOf dc t) staff := by
  cases staff with
  | nil => rfl
  | cons a l =>
    obtain ⟨s, hs, hmin⟩ := head_sortBy_counts dc t (a :: l) hu (by simp)
    obtain ⟨s', hs', hmin'⟩ := firstMinScan_isFirstMin (countOf dc t) (a :: l) (by simp)
    rw [hs, hs', hmin.unique hmin']

/-! ## The sort is a stable sort

`sortBy` returns a permutation that is ordered by the key and keeps the members of
equal key in their original order; a list with these properties is unique, so
any stable sorting algorithm returns the same array. -/

theorem insertBy_perm {α : Type} (cmp : α → α → Int) (a : α) (l : List α) :
    (insertBy cmp a l).Perm (a :: l) := by
  induction l with
  | nil => exact List.Perm.refl _
  | cons b l ih =>
    unfold insertBy
    by_cases hc : cmp a b ≤ 0
    · rw [if_pos hc]
    · rw [if_neg hc]
      exact (List.Perm.cons b ih).trans (List.Perm.swap a b l)

theorem sortBy_perm {α : Type} (cmp : α → α → Int) (l : List α) : (sortBy cmp l).Perm l := by
  induction l with
  | nil => exact List.Perm.refl _
  | cons a l ih =>
    unfold sortBy
    exact (insertBy_perm cmp a _).trans (List.Perm.cons a ih)

theorem insertBy_sorted {α : Type} (cmp : α → α → Int) (key : α → Nat)
    (P : α → Prop) (hcmp : ∀ a b, P a → P b → (cmp a b ≤ 0 ↔ key a ≤ key b))
    (a : α) (l : List α) (hPa : P a) (hP : ∀ x ∈ l, P x)
    (hl : l.Pairwise (fun x y => key x ≤ key y)) :
    (insertBy cmp a l).Pairwise (fun x y => key x ≤ key y) := by
  induction l with
  | nil => simp [insertBy]
  | cons b l ih =>
    unfold insertBy
    rw [List.pairwise_cons] at hl
    have hPb : P b := hP b (List.mem_cons_self _ _)
    by_cases hc : cmp a b ≤ 0
    · rw [if_pos hc]
      have hab := (hcmp a b hPa hPb).mp hc
      refine List.Pairwise.cons ?_ (List.Pairwise.cons hl.1 hl.2)
      intro x hx
      rcases List.mem_cons.mp hx with rfl | hx
      · exact hab
      · exact Nat.le_trans hab (hl.1 x hx)
    · rw [if_neg hc]
      have hba : key b ≤ key a := by
        have := (hcmp a b hPa hPb).not.mp hc
        omega
      refine List.Pairwise.cons ?_ (ih (fun x hx => hP x (List.mem_cons_of_mem _ hx)) hl.2)
      intro x hx
      rcases List.mem_cons.mp ((insertBy_perm cmp a l).subset hx) with rfl | hx
      · exact hba
      · exact hl.1 x hx

theorem sortBy_sorted {α : Type} (cmp : α → α → Int) (key : α → Nat)
    (P : α → Prop) (hcmp : ∀ a b, P a → P b → (cmp a b ≤ 0 ↔ key a ≤ key b))
    (l : List α) (hP : ∀ x ∈ l, P x) :
    (sortBy cmp l).Pairwise (fun x y => key x ≤ key y) := by
  induction l with
  | nil => exact List.Pairwise.nil
  | cons a l ih =>
    unfold sortBy
    have hPl : ∀ x ∈ l, P x := fun x hx => hP x (List.mem_cons_of_mem _ hx)
    exact insertBy_sorted cmp key P hcmp a _ (hP a (List.mem_cons_self _ _))
      (fun x hx => hPl x ((sortBy_perm cmp l).subset hx)) (ih hPl)

theorem insertBy_filter_key {α : Type} (cmp : α → α → Int) (key : α → Nat)
    (P : α → Prop) (hcmp : ∀ a b, P a → P b → (cmp a b ≤ 0 ↔ key a ≤ key b))
    (k : Nat) (a : α) (l : List α) (hPa : P a) (hP : ∀ x ∈ l, P x) :
    (insertBy cmp a l).filter (fun x => decide (key x = k)) =
      (a :: l).filter (fun x => decide (key x = k)) := by
  induction l with
  | nil => rfl
  | cons b l ih =>
    unfold insertBy
    by_cases hc : cmp a b ≤ 0
    · rw [if_pos hc]
    · rw [if_neg hc]
      have hba : key b < key a := by
        have := (hcmp a b hPa (hP b (List.mem_cons_self _ _))).not.mp hc
        omega
      rw [List.filter_cons, ih (fun x hx => hP x (List.mem_cons_of_mem _ hx))]
      by_cases ha : key a = k
      · have hb : ¬ key b = k := by omega
        simp [List.filter_cons, ha, hb]
      · simp [List.filter_cons, ha]

/-- Stability: the members of any one key keep their original order. -/
theorem sortBy_stable {α : Type} (cmp : α → α → Int) (key : α → Nat)
    (P : α → Prop) (hcmp : ∀ a b, P a → P b → (cmp a b ≤ 0 ↔ key a ≤ key b))
    (k : Nat) (l : List α) (hP : ∀ x ∈ l, P x) :
    (sortBy cmp l).filter (fun x => decide (key x = k)) =
      l.filter (fun x => decide (key x = k)) := by
  induction l with
  | nil => rfl
  | cons a l ih =>
    unfold sortBy
    have hPl : ∀ x ∈ l, P x := fun x hx => hP x (List.mem_cons_of_mem _ hx)
    rw [insertBy_filter_key cmp key P hcmp k a _ (hP a (List.mem_cons_self _ _))
      (fun x hx => hPl x ((sortBy_perm cmp l).subset hx)), List.filter_cons, ih hPl,
      List.filter_cons]

/-- The sorted copy of the staff: a permutation, ascending in the count, stable. -/
theorem sortedStaff_spec (dc : DutyCounts) (t : DutyType) (staff : List StaffMember)
    (hu : Uniform dc t staff) :
    (sortBy (compareCounts dc t) staff).Perm staff ∧
      (sortBy (compareCounts dc t) staff).Pairwise
        (fun x y => countOf dc t x ≤ countOf dc t y) ∧
      ∀ k, (sortBy (compareCounts dc t) staff).filter (fun x => decide (countOf dc t x = k)) =
        staff.filter (fun x => decide (countOf dc t x = k)) :=
  ⟨sortBy_perm _ _,
    sortBy_sorted _ _ (fun x => x ∈ staff)
      (fun a b ha hb => compareCounts_le_zero dc t a b (hu a ha b hb)) _ (fun _ hx => hx),
    fun k => sortBy_stable _ _ (fun x => x ∈ staff)
      (fun a b ha hb => compareCounts_le_zero dc t a b (hu a ha b hb)) k _ (fun _ hx => hx)⟩

/-- When no count is a number the comparator is `NaN` throughout and the sort leaves
the staff list as it is. -/
theorem sortBy_of_no_number (dc : DutyCounts) (t : DutyType) (staff : List StaffMember)
    (h : ∀ s ∈ staff, readCount dc s.id t = none) :
    sortBy (compareCounts dc t) staff = staff := by
  induction staff with
  | nil => rfl
  | cons a l ih =>
    unfold sortBy
    rw [ih (fun s hs => h s (List.mem_cons_of_mem _ hs))]
    cases l with
    | nil => rfl
    | cons b l =>
      have ha := (readCount_eq_none dc a.id t).mp (h a (List.mem_cons_self _ _))
      have hc : compareCounts dc t a b ≤ 0 := by
        unfold compareCounts
        rw [ha]
      unfold insertBy
      rw [if_pos hc]

/-! ## Counters -/

theorem getCount_putCount (o : TypeCounts) (t : DutyType) (v : JsNumber) (u : DutyType) :
    getCount (putCount o t v) u =
      if u = t ∧ t ≠ "__proto__" then .own v else getCount o u := by
  unfold getCount putCount lookupKey
  by_cases ht : t = "__proto__"
  · simp [ht]
  · by_cases hu : u = t
    · subst hu
      simp [ht]
    · have hc : ¬ (u = t ∧ t ≠ "__proto__") := fun h => hu h.1
      rw [if_neg hc, if_neg ht]
      simp only [if_neg hu]

theorem setCount_isSome (dc : DutyCounts) (id : StaffId) (t : DutyType) (v : JsNumber)
    (i : StaffId) : (setCount dc id t v i).isSome = (dc i).isSome := by
  unfold setCount
  by_cases hi : i = id
  · rw [if_pos hi]
    cases dc i <;> rfl
  · rw [if_neg hi]

theorem incrementCount_isSome (dc : DutyCounts) (id : StaffId) (t : DutyType) (i : StaffId) :
    (incrementCount dc id t i).isSome = (dc i).isSome := by
  unfold incrementCount
  by_cases hi : i = id
  · rw [if_pos hi]
    cases dc i <;> rfl
  · rw [if_neg hi]

theorem readCount_setCount (dc : DutyCounts) (id : StaffId) (t : DutyType) (n : Nat)
    (i : StaffId) (u : DutyType) :
    readCount (setCount dc id t (.num n)) i u =
      if i = id ∧ u = t ∧ t ≠ "__proto__" then (dc id).map (fun _ => n)
      else readCount dc i u := by
  unfold readCount readNumber setCount
  by_cases hi : i = id
  · subst hi
    cases h : dc i with
    | none => simp
    | some o =>
      simp only [if_true, Option.map_some', getCount_putCount, true_and]
      by_cases hc : u = t ∧ t ≠ "__proto__"
      · simp [hc, toNumber]
      · simp [hc]
  · simp [hi]

/-- The statement `++` adds one to a count that is a number and leaves every other
count as it is; a value that is not a number stays one. -/
theorem readCount_incrementCount (dc : DutyCounts) (id : StaffId) (t : DutyType)
    (i : StaffId) (u : DutyType) :
    readCount (incrementCount dc id t) i u =
      (readCount dc i u).map (fun m => if i = id ∧ u = t then m + 1 else m) := by
  unfold readCount readNumber incrementCount
  by_cases hi : i = id
  · subst hi
    cases h : dc i with
    | none => simp
    | some o =>
      simp only [if_true, Option.map_some', getCount_putCount, true_and]
      by_cases hu : u = t
      · subst hu
        by_cases hp : u = "__proto__"
        · subst hp
          simp [getCount_proto, toNumber]
        · simp only [hp, ne_eq, not_false_eq_true, and_self, if_true, toNumber]
          cases hg : getCount o u with
          | undefined => simp [JsNumber.succ]
          | inherited name => simp [JsNumber.succ]
          | own v => cases v <;> simp [JsNumber.succ]
      · simp only [hu, false_and, if_false]
        cases hg : toNumber (getCount o u) <;> simp
  · simp only [hi, if_false, false_and]
    cases hd : dc i with
    | none => simp
    | some o => cases hg : toNumber (getCount o u) <;> simp

theorem readCount_foldl_setCount (id : StaffId) (types : List DutyType) (dc : DutyCounts)
    (i : StaffId) (u : DutyType) :
    readCount (types.foldl (fun dc1 type => setCount dc1 id type (.num 0)) dc) i u =
      if i = id ∧ u ∈ types ∧ u ≠ "__proto__" then (dc id).map (fun _ => 0)
      else readCount dc i u := by
  induction types generalizing dc with
  | nil => simp
  | cons t ts ih =>
    simp only [List.foldl_cons]
    rw [ih, readCount_setCount]
    have hdef : (setCount dc id t (.num 0) id).map (fun _ => 0) = (dc id).map (fun _ => 0) := by
      unfold setCount
      cases dc id <;> simp
    rw [hdef]
    by_cases hi : i = id
    · by_cases hp : u = "__proto__"
      · simp [hi, hp]
        intro h1 h2
        exact absurd h1.symm h2
      · by_cases hu : u ∈ ts
        · simp [hi, hu, hp]
        · by_cases hut : u = t
          · subst hut
            simp [hi, hu, hp]
          · simp [hi, hu, hut, hp]
    · simp [hi]

theorem readCount_initCounts_aux (types : List DutyType) (staff : List StaffMember)
    (dc : DutyCounts) (i : StaffId) (u : DutyType) :
    readCount (staff.foldl
      (fun dc s =>
        types.foldl (fun dc1 type => setCount dc1 s.id type (.num 0)) (resetStaff dc s.id))
      dc) i u =
      if i ∈ staff.map (fun s => s.id) then
        (if u ∈ types ∧ u ≠ "__proto__" then some 0 else none)
      else readCount dc i u := by
  induction staff generalizing dc with
  | nil => simp
  | cons s rest ih =>
    simp only [List.foldl_cons]
    rw [ih, readCount_foldl_setCount]
    by_cases hr : i ∈ rest.map (fun s => s.id)
    · simp [hr]
    · by_cases hi : i = s.id
      · subst hi
        by_cases hu : u ∈ types ∧ u ≠ "__proto__"
        · simp [hr, hu, resetStaff]
        · have hu' : ¬ (u ∈ types ∧ ¬ u = "__proto__") := hu
          simp only [hr, if_false, true_and, hu', List.map_cons, List.mem_cons, true_or,
            if_true]
          unfold readCount readNumber resetStaff getCount lookupKey toNumber
          simp only [if_true]
          by_cases hp : u = "__proto__"
          · simp [hp]
          · by_cases hn : u ∈ objectPrototypeNames <;> simp [hp, hn]
      · have hi' : ¬ i = s.id := hi
        simp only [hr, hi', false_and, if_false, List.map_cons, List.mem_cons, false_or]
        unfold readCount readNumber resetStaff
        simp [hi']

/-- Counts after initialisation: `0` exactly on staff ids and requested duty types
other than `__proto__`. -/
theorem readCount_initCounts (staff : List StaffMember) (types : List DutyType)
    (i : StaffId) (u : DutyType) :
    readCount (initCounts staff types) i u =
      if i ∈ staff.map (fun s => s.id) ∧ u ∈ types ∧ u ≠ "__proto__" then some 0 else none := by
  unfold initCounts
  rw [readCount_initCounts_aux]
  by_cases hi : i ∈ staff.map (fun s => s.id)
  · by_cases hu : u ∈ types ∧ u ≠ "__proto__"
    · simp [hi, hu]
    · have hu' : ¬ (u ∈ types ∧ ¬ u = "__proto__") := hu
      simp [hi, hu']
  · simp only [hi, if_false, false_and]
    exact readCount_of_missing _ _ _ rfl

theorem foldl_setCount_isSome (id : StaffId) (types : List DutyType) (dc : DutyCounts)
    (i : StaffId) :
    ((types.foldl (fun dc1 type => setCount dc1 id type (.num 0)) dc) i).isSome =
      (dc i).isSome := by
  induction types generalizing dc with
  | nil => rfl
  | cons t ts ih =>
    simp only [List.foldl_cons]
    rw [ih, setCount_isSome]

theorem initCounts_isSome_aux (types : List DutyType) (staff : List StaffMember)
    (dc : DutyCounts) (i : StaffId) :
    ((staff.foldl
      (fun dc s =>
        types.foldl (fun dc1 type => setCount dc1 s.id type (.num 0)) (resetStaff dc s.id))
      dc) i).isSome = (decide (i ∈ staff.map (fun s => s.id)) || (dc i).isSome) := by
  induction staff generalizing dc with
  | nil => simp
  | cons s rest ih =>
    simp only [List.foldl_cons]
    rw [ih, foldl_setCount_isSome]
    unfold resetStaff
    by_cases hi : i = s.id
    · simp [hi]
    · simp [hi]

/-- After initialisation exactly the staff ids have an inner object. -/
theorem initCounts_isSome (staff : List StaffMember) (types : List DutyType) (i : StaffId) :
    ((initCounts staff types) i).isSome = decide (i ∈ staff.map (fun s => s.id)) := by
  unfold initCounts
  rw [initCounts_isSome_aux]
  simp [emptyCounts]

/-- A history row either leaves the counters as they are or increments one. -/
theorem tallyDuty_cases (dc : DutyCounts) (d : DutyRecord) :
    (tallyDuty dc d = dc ∧ readCount dc d.staff_id d.duty_type = none) ∨
      tallyDuty dc d = incrementCount dc d.staff_id d.duty_type := by
  unfold tallyDuty
  cases h : dc d.staff_id with
  | none => exact Or.inl ⟨rfl, readCount_of_missing _ _ _ h⟩
  | some o =>
    simp only
    cases hg : getCount o d.duty_type with
    | undefined =>
      refine Or.inl ⟨rfl, ?_⟩
      unfold readCount readNumber
      rw [h]
      simp [hg, toNumber]
    | own v => exact Or.inr rfl
    | inherited name => exact Or.inr rfl

theorem tallyDuty_isSome (dc : DutyCounts) (d : DutyRecord) (i : StaffId) :
    (tallyDuty dc d i).isSome = (dc i).isSome := by
  rcases tallyDuty_cases dc d with ⟨h, -⟩ | h
  · rw [h]
  · rw [h, incrementCount_isSome]

theorem readCount_tallyDuty (dc : DutyCounts) (d : DutyRecord) (i : StaffId) (u : DutyType) :
    readCount (tallyDuty dc d) i u =
      (readCount dc i u).map (fun m => if d.staff_id = i ∧ d.duty_type = u then m + 1 else m) := by
  rcases tallyDuty_cases dc d with ⟨h, hn⟩ | h
  · rw [h]
    by_cases hc : d.staff_id = i ∧ d.duty_type = u
    · obtain ⟨rfl, rfl⟩ := hc
      simp [hn]
    · cases readCount dc i u <;> simp [hc]
  · rw [h, readCount_incrementCount]
    congr 1
    funext m
    simp only [eq_comm]

theorem readCount_foldl_tallyDuty (ds : List DutyRecord) (dc : DutyCounts)
    (i : StaffId) (u : DutyType) :
    readCount (ds.foldl tallyDuty dc) i u =
      (readCount dc i u).map (fun m => m + historyCount (some ds) i u) := by
  induction ds generalizing dc with
  | nil => simp [historyCount]
  | cons d ds ih =>
    simp only [List.foldl_cons]
    rw [ih, readCount_tallyDuty]
    cases readCount dc i u with
    | none => simp
    | some m =>
      simp only [Option.map_some', Option.some.injEq, historyCount, Option.getD_some] at *
      by_cases hc : d.staff_id = i ∧ d.duty_type = u
      · simp [hc, List.filter_cons]; omega
      · simp [hc, List.filter_cons]

theorem readCount_countHistory (dc : DutyCounts) (recentDuties : Option (List DutyRecord))
    (i : StaffId) (u : DutyType) :
    readCount (countHistory dc recentDuties) i u =
      (readCount dc i u).map (fun m => m + historyCount recentDuties i u) := by
  cases recentDuties with
  | none => simp [countHistory, historyCount]
  | some ds => exact readCount_foldl_tallyDuty ds dc i u

theorem countHistory_isSome (dc : DutyCounts) (recentDuties : Option (List DutyRecord))
    (i : StaffId) : (countHistory dc recentDuties i).isSome = (dc i).isSome := by
  cases recentDuties with
  | none => rfl
  | some ds =>
    unfold countHistory
    simp only
    induction ds generalizing dc with
    | nil => rfl
    | cons d ds ih =>
      simp only [List.foldl_cons]
      rw [ih, tallyDuty_isSome]

/-- Counts before the first assignment. -/
theorem readCount_start (staff : List StaffMember) (types : List DutyType)
    (recentDuties : Option (List DutyRecord)) (i : StaffId) (u : DutyType) :
    readCount (countHistory (initCounts staff types) recentDuties) i u =
      if i ∈ staff.map (fun s => s.id) ∧ u ∈ types ∧ u ≠ "__proto__" then
        some (historyCount recentDuties i u)
      else none := by
  rw [readCount_countHistory, readCount_initCounts]
  split <;> simp

theorem ready_start (staff : List StaffMember) (types : List DutyType)
    (recentDuties : Option (List DutyRecord)) :
    Ready staff types (countHistory (initCounts staff types) recentDuties) := by
  intro s hs
  have hid : s.id ∈ staff.map (fun s => s.id) := List.mem_map.mpr ⟨s, hs, rfl⟩
  refine ⟨?_, ?_⟩
  · rw [countHistory_isSome, initCounts_isSome]
    simpa using hid
  · intro t ht hp
    rw [readCount_start]
    simp [hid, ht, hp]

theorem ready_incrementCount (staff : List StaffMember) (types : List DutyType)
    (dc : DutyCounts) (id : StaffId) (t : DutyType) (h : Ready staff types dc) :
    Ready staff types (incrementCount dc id t) := by
  intro x hx
  refine ⟨by rw [incrementCount_isSome]; exact (h x hx).1, ?_⟩
  intro u hu hp
  rw [readCount_incrementCount]
  have := (h x hx).2 u hu hp
  cases hr : readCount dc x.id u with
  | none => rw [hr] at this; simp at this
  | some n => simp

/-! ## One assignment step -/

/-- A step over staff who all have an inner object completes: the head of the sort is
assigned, its record is appended and its count is incremented. -/
theorem assignDuty_some (school : String) (staff : List StaffMember) (st : LoopState)
    (date : Int) (t : DutyType) (hstaff : staff ≠ [])
    (hobj : ∀ s ∈ staff, (st.1 s.id).isSome = true) :
    ∃ s, s ∈ staff ∧ (sortBy (compareCounts st.1 t) staff).head? = some s ∧
      assignDuty school staff st date t =
        some (incrementCount st.1 s.id t, st.2 ++ [assignmentOf school s date t]) := by
  have hall : (staff.all fun s => (st.1 s.id).isSome) = true := by
    rw [List.all_eq_true]
    exact hobj
  unfold assignDuty
  rw [if_pos hall]
  cases hsort : sortBy (compareCounts st.1 t) staff with
  | nil =>
    have := (sortBy_perm (compareCounts st.1 t) staff).length_eq
    rw [hsort] at this
    exact absurd (List.length_eq_zero.mp this.symm) hstaff
  | cons a rest =>
    refine ⟨a, ?_, rfl, rfl⟩
    apply (sortBy_perm (compareCounts st.1 t) staff).subset
    rw [hsort]
    exact List.mem_cons_self _ _

theorem assignDuty_eq (school : String) (staff : List StaffMember) (st : LoopState)
    (date : Int) (t : DutyType) (hstaff : staff ≠ [])
    (hobj : ∀ s ∈ staff, (st.1 s.id).isSome = true) (hu : Uniform st.1 t staff) :
    ∃ s, (sortBy (compareCounts st.1 t) staff).head? = some s ∧
      IsFirstMin (countOf st.1 t) staff s ∧
      assignDuty school staff st date t =
        some (incrementCount st.1 s.id t, st.2 ++ [assignmentOf school s date t]) := by
  obtain ⟨s, -, hs, hstep⟩ := assignDuty_some school staff st date t hstaff hobj
  obtain ⟨s', hs', hmin⟩ := head_sortBy_counts st.1 t staff hu hstaff
  rw [hs] at hs'
  cases Option.some.inj hs'
  exact ⟨s, hs, hmin, hstep⟩

theorem runSteps_nil (school : String) (staff : List StaffMember) (st : LoopState) :
    runSteps school staff [] st = some st := rfl

theorem runSteps_cons (school : String) (staff : List StaffMember) (p : Int × DutyType)
    (ps : List (Int × DutyType)) (st : LoopState) :
    runSteps school staff (p :: ps) st =
      (assignDuty school staff st p.1 p.2).bind (runSteps school staff ps) := by
  unfold runSteps
  rw [List.foldlM_cons]
  rfl

theorem runSteps_append (school : String) (staff : List StaffMember)
    (pre post : List (Int × DutyType)) (st : LoopState) :
    runSteps school staff (pre ++ post) st =
      (runSteps school staff pre st).bind (runSteps school staff post) := by
  unfold runSteps
  rw [List.foldlM_append]
  rfl

theorem assignAll_eq_runSteps (school : String) (staff : List StaffMember)
    (days : List Int) (types : List DutyType) (st : LoopState) :
    assignAll school staff days types st = runSteps school staff (stepList days types) st := by
  induction days generalizing st with
  | nil => rfl
  | cons d ds ih =>
    have hcons : stepList (d :: ds) types = types.map (fun t => (d, t)) ++ stepList ds types := by
      simp [stepList]
    rw [hcons, runSteps_append]
    unfold assignAll
    rw [List.foldlM_cons]
    have hinner : List.foldlM (fun st2 dutyType => assignDuty school staff st2 d dutyType) st types
        = runSteps school staff (types.map (fun t => (d, t))) st := by
      unfold runSteps
      rw [List.foldlM_map]
    rw [hinner]
    cases h : runSteps school staff (types.map (fun t => (d, t))) st with
    | none => rfl
    | some st1 =>
      have := ih st1
      unfold assignAll at this
      simpa using this

theorem assignedCount_cons (r : DutyAssignment) (rs : List DutyAssignment) (i : StaffId)
    (u : DutyType) :
    assignedCount (r :: rs) i u =
      (if r.staff_id = i ∧ r.duty_type = u then 1 else 0) + assignedCount rs i u := by
  unfold assignedCount
  by_cases hc : r.staff_id = i ∧ r.duty_type = u
  · simp [List.filter_cons, hc]; omega
  · simp [List.filter_cons, hc]

/-- A run of steps over requested duty types from ready counters never fails; the
records appended follow the steps, and every count that is a number grows by the
number of records appended for it. -/
theorem runSteps_spec (school : String) (staff : List StaffMember) (types : List DutyType)
    (hstaff : staff ≠ []) (steps : List (Int × DutyType)) (st : LoopState)
    (hready : Ready staff types st.1) (htypes : ∀ p ∈ steps, p.2 ∈ types) :
    ∃ fin tail, runSteps school staff steps st = some fin ∧ Ready staff types fin.1 ∧
      fin.2 = st.2 ++ tail ∧ tail.map slotOf = steps ∧
      (∀ i u, readCount fin.1 i u =
        (readCount st.1 i u).map (fun m => m + assignedCount tail i u)) ∧
      (∀ r ∈ tail, ∃ s ∈ staff, r = assignmentOf school s r.duty_date r.duty_type) := by
  induction steps generalizing st with
  | nil =>
    refine ⟨st, [], rfl, hready, by simp, rfl, ?_, by simp⟩
    intro i u
    cases readCount st.1 i u <;> simp [assignedCount]
  | cons p ps ih =>
    obtain ⟨s, hmem, -, hstep⟩ :=
      assignDuty_some school staff st p.1 p.2 hstaff (fun s hs => (hready s hs).1)
    have hcount := readCount_incrementCount st.1 s.id p.2
    obtain ⟨fin, tail, hrun, hfin, htail, hslots, hcounts, hrecs⟩ :=
      ih (incrementCount st.1 s.id p.2, st.2 ++ [assignmentOf school s p.1 p.2])
        (ready_incrementCount staff types st.1 s.id p.2 hready)
        (fun q hq => htypes q (List.mem_cons_of_mem _ hq))
    refine ⟨fin, assignmentOf school s p.1 p.2 :: tail, ?_, hfin, ?_, ?_, ?_, ?_⟩
    · rw [runSteps_cons, hstep]
      exact hrun
    · rw [htail]
      simp
    · simp [hslots, slotOf, assignmentOf]
    · intro i u
      rw [hcounts i u]
      simp only
      rw [hcount i u, assignedCount_cons]
      cases readCount st.1 i u with
      | none => simp
      | some m =>
        simp only [Option.map_some', Option.some.injEq, assignmentOf]
        by_cases hc : i = s.id ∧ u = p.2
        · obtain ⟨rfl, rfl⟩ := hc
          simp; omega
        · have hc' : ¬ (s.id = i ∧ p.2 = u) := fun h => hc ⟨h.1.symm, h.2.symm⟩
          simp [hc, hc']
    · intro r hr
      rcases List.mem_cons.mp hr with rfl | hr
      · exact ⟨s, hmem, rfl⟩
      · exact hrecs r hr

/-! ## Working days -/

theorem toISODate_nextDay (t : Int) : toISODate (nextDay t) = toISODate t + 1 := by
  unfold toISODate nextDay MS_PER_DAY
  omega

theorem toISODate_newDate (d : Int) : toISODate (newDate d) = d := by
  unfold toISODate newDate MS_PER_DAY
  omega

theorem nextDay_newDate (d : Int) : nextDay (newDate d) = newDate (d + 1) := by
  unfold nextDay newDate MS_PER_DAY
  omega

/-- The loop only appends, and what it appends is strictly increasing and not before
the day of `current`. -/
theorem getWeekdaysLoop_spec (tz stop : Int) (fuel : Nat) (current : Int) (dates : List Int) :
    ∃ extra, getWeekdaysLoop tz stop fuel current dates = dates ++ extra ∧
      extra.Pairwise (fun a b => a < b) ∧ ∀ x ∈ extra, toISODate current ≤ x := by
  induction fuel generalizing current dates with
  | zero => exact ⟨[], by simp [getWeekdaysLoop], List.Pairwise.nil, by simp⟩
  | succ n ih =>
    unfold getWeekdaysLoop
    by_cases hc : current ≤ stop
    · simp only [hc, if_true]
      by_cases hd : getDay tz current ≠ 0 ∧ getDay tz current ≠ 6
      · obtain ⟨extra, he, hp, hge⟩ := ih (nextDay current) (dates ++ [toISODate current])
        refine ⟨toISODate current :: extra, ?_, ?_, ?_⟩
        · rw [if_pos hd, he]
          simp
        · refine List.Pairwise.cons ?_ hp
          intro x hx
          have := hge x hx
          rw [toISODate_nextDay] at this
          omega
        · intro x hx
          rcases List.mem_cons.mp hx with rfl | hx
          · exact Int.le_refl _
          · have := hge x hx
            rw [toISODate_nextDay] at this
            omega
      · obtain ⟨extra, he, hp, hge⟩ := ih (nextDay current) dates
        refine ⟨extra, ?_, hp, ?_⟩
        · rw [if_neg hd]
          exact he
        · intro x hx
          have := hge x hx
          rw [toISODate_nextDay] at this
          omega
    · exact ⟨[], by simp [hc], List.Pairwise.nil, by simp⟩

/-- The dates returned by `getWeekdays` are strictly increasing. -/
theorem getWeekdays_increasing (tz : Int) (startDate endDate : Int) :
    (getWeekdays tz startDate endDate).Pairwise (fun a b => a < b) := by
  obtain ⟨extra, he, hp, -⟩ :=
    getWeekdaysLoop_spec tz (newDate endDate) (endDate - startDate + 1).toNat (newDate startDate) []
  unfold getWeekdays
  rw [he]
  simpa using hp

theorem getWeekdays_nodup (tz : Int) (startDate endDate : Int) :
    (getWeekdays tz startDate endDate).Nodup :=
  (getWeekdays_increasing tz startDate endDate).imp (fun h => Int.ne_of_lt h)

/-- Once `current` has passed `end`, further fuel changes nothing. -/
theorem getWeekdaysLoop_fuel (tz stop : Int) (n : Nat) (current : Int) (dates : List Int)
    (h : stop < current + n * MS_PER_DAY) (k : Nat) :
    getWeekdaysLoop tz stop (n + k) current dates = getWeekdaysLoop tz stop n current dates := by
  induction n generalizing current dates with
  | zero =>
    have hc : ¬ current ≤ stop := by simp at h; omega
    cases k with
    | zero => rfl
    | succ k => simp [getWeekdaysLoop, hc]
  | succ n ih =>
    have hnk : n + 1 + k = (n + k) + 1 := by omega
    rw [hnk]
    unfold getWeekdaysLoop
    by_cases hc : current ≤ stop
    · simp only [hc, if_true]
      apply ih
      unfold nextDay
      push_cast at h
      linarith
    · simp [hc]

/-- The fuel of `getWeekdays` is enough: the `while` loop ends because its condition
fails, and more iterations would not change the result. -/
theorem getWeekdays_fuel (tz : Int) (startDate endDate : Int) (k : Nat) :
    getWeekdaysLoop tz (newDate endDate) ((endDate - startDate + 1).toNat + k)
      (newDate startDate) [] = getWeekdays tz startDate endDate := by
  unfold getWeekdays
  apply getWeekdaysLoop_fuel
  unfold newDate MS_PER_DAY
  omega

/-- When the local zone is at or east of UTC (by less than a day), the local weekday
of a UTC midnight is the weekday of its UTC day. -/
theorem getDay_newDate (tz : Int) (h0 : 0 ≤ tz) (h1 : tz < 1440) (d : Int) :
    getDay tz (newDate d) = weekdayOf d := by
  unfold getDay newDate MS_PER_DAY MS_PER_MINUTE
  congr 1
  omega

theorem getWeekdaysLoop_weekdays (tz : Int) (h0 : 0 ≤ tz) (h1 : tz < 1440) (stop : Int)
    (fuel : Nat) (d : Int) (dates : List Int)
    (hdates : ∀ x ∈ dates, weekdayOf x ≠ 0 ∧ weekdayOf x ≠ 6) :
    ∀ x ∈ getWeekdaysLoop tz stop fuel (newDate d) dates, weekdayOf x ≠ 0 ∧ weekdayOf x ≠ 6 := by
  induction fuel generalizing d dates with
  | zero => simpa [getWeekdaysLoop] using hdates
  | succ n ih =>
    unfold getWeekdaysLoop
    by_cases hc : newDate d ≤ stop
    · simp only [hc, if_true]
      rw [nextDay_newDate, getDay_newDate tz h0 h1, toISODate_newDate]
      apply ih
      intro x hx
      by_cases hd : weekdayOf d ≠ 0 ∧ weekdayOf d ≠ 6
      · rw [if_pos hd] at hx
        rcases List.mem_append.mp hx with hx | hx
        · exact hdates x hx
        · simp at hx; subst hx; exact hd
      · rw [if_neg hd] at hx
        exact hdates x hx
    · simpa [hc] using hdates

/-- In a zone at or east of UTC (fixed offset below 24 hours) no returned date is a
Saturday or a Sunday. -/
theorem getWeekdays_weekdays_east (tz : Int) (h0 : 0 ≤ tz) (h1 : tz < 1440)
    (startDate endDate : Int) :
    ∀ x ∈ getWeekdays tz startDate endDate, weekdayOf x ≠ 0 ∧ weekdayOf x ≠ 6 :=
  getWeekdaysLoop_weekdays tz h0 h1 _ _ startDate [] (by simp)

/-! ## The step list -/

theorem stepList_cons (d : Int) (ds : List Int) (types : List DutyType) :
    stepList (d :: ds) types = types.map (fun t => (d, t)) ++ stepList ds types := by
  simp [stepList]

theorem length_stepList (days : List Int) (types : List DutyType) :
    (stepList days types).length = days.length * types.length := by
  induction days with
  | nil => simp [stepList]
  | cons d ds ih =>
    rw [stepList_cons, List.length_append, ih, List.length_map, List.length_cons]
    ring

theorem mem_stepList (days : List Int) (types : List DutyType) (p : Int × DutyType) :
    p ∈ stepList days types ↔ p.1 ∈ days ∧ p.2 ∈ types := by
  unfold stepList
  simp only [List.mem_flatMap, List.mem_map]
  constructor
  · rintro ⟨d, hd, t, ht, rfl⟩
    exact ⟨hd, ht⟩
  · rintro ⟨hd, ht⟩
    exact ⟨p.1, hd, p.2, ht, rfl⟩

theorem count_map_pair (d' d : Int) (t : DutyType) (types : List DutyType) :
    (types.map (fun t => (d', t))).count (d, t) = if d' = d then types.count t else 0 := by
  induction types with
  | nil => simp
  | cons t' ts iht =>
    simp only [List.map_cons, List.count_cons, iht]
    by_cases h1 : d' = d <;> by_cases h2 : t' = t <;> simp [h1, h2]

theorem count_stepList (days : List Int) (types : List DutyType) (d : Int)
    (t : DutyType) :
    (stepList days types).count (d, t) = days.count d * types.count t := by
  induction days with
  | nil => simp [stepList]
  | cons d' ds ih =>
    rw [stepList_cons, List.count_append, ih, List.count_cons, count_map_pair]
    by_cases h1 : d' = d
    · simp [h1]; ring
    · simp [h1]

theorem slotCount_cons (r : DutyAssignment) (rs : List DutyAssignment) (d : Int)
    (t : DutyType) :
    slotCount (r :: rs) d t =
      slotCount rs d t + (if r.duty_date = d ∧ r.duty_type = t then 1 else 0) := by
  unfold slotCount
  by_cases hc : r.duty_date = d ∧ r.duty_type = t
  · simp [List.filter_cons, hc]
  · simp [List.filter_cons, hc]

theorem slotCount_eq_count (roster : List DutyAssignment) (d : Int) (t : DutyType) :
    slotCount roster d t = (roster.map slotOf).count (d, t) := by
  induction roster with
  | nil => rfl
  | cons r rs ih =>
    rw [slotCount_cons, List.map_cons, List.count_cons, ih]
    by_cases hc : r.duty_date = d ∧ r.duty_type = t
    · have : slotOf r = (d, t) := by simp [slotOf, hc.1, hc.2]
      simp [hc, this]
    · have : ¬ slotOf r = (d, t) := by
        intro h
        simp only [slotOf, Prod.mk.injEq] at h
        exact hc h
      simp [hc, this]

/-! ## The synchronous part as a whole -/

/-- With at least one staff member the loops complete; the batch lists the steps in
order, and the counters of the duty types other than `__proto__` are the history
counts plus the records of the batch. -/
theorem buildRoster_spec (school : String) (staff : List StaffMember)
    (hist : Option (List DutyRecord)) (tz : Int) (startDate endDate : Int)
    (types : List DutyType) (hstaff : staff ≠ []) :
    ∃ fin, buildRoster school staff hist tz startDate endDate types = some fin ∧
      fin.2.map slotOf = stepList (getWeekdays tz startDate endDate) types ∧
      (∀ r ∈ fin.2, ∃ s ∈ staff, r = assignmentOf school s r.duty_date r.duty_type) ∧
      (∀ s ∈ staff, ∀ t ∈ types, t ≠ "__proto__" → readCount fin.1 s.id t =
        some (historyCount hist s.id t + assignedCount fin.2 s.id t)) := by
  obtain ⟨fin, tail, hrun, -, htail, hslots, hcounts, hrecs⟩ :=
    runSteps_spec school staff types hstaff (stepList (getWeekdays tz startDate endDate) types)
      (countHistory (initCounts staff types) hist, []) (ready_start staff types hist)
      (fun p hp => ((mem_stepList _ _ p).mp hp).2)
  simp only [List.nil_append] at htail
  subst htail
  refine ⟨fin, ?_, hslots, hrecs, ?_⟩
  · unfold buildRoster
    rw [assignAll_eq_runSteps]
    exact hrun
  · intro s hs t ht hp
    rw [hcounts, readCount_start]
    have : s.id ∈ staff.map (fun s => s.id) := List.mem_map.mpr ⟨s, hs, rfl⟩
    simp [this, ht, hp]

/-! ## A run seen step by step -/

theorem buildRoster_eq_runSteps (school : String) (staff : List StaffMember)
    (hist : Option (List DutyRecord)) (tz : Int) (startDate endDate : Int)
    (types : List DutyType) :
    buildRoster school staff hist tz startDate endDate types =
      runSteps school staff (stepList (getWeekdays tz startDate endDate) types)
        (startState staff hist types) := by
  unfold buildRoster startState
  rw [assignAll_eq_runSteps]

/-- The state after the first steps of a run, however many: it exists, its counters
are ready, its roster has one record per step taken, and the run continues from it
to the final state. -/
theorem run_upto (school : String) (staff : List StaffMember) (types : List DutyType)
    (hstaff : staff ≠ []) (init : LoopState) (hready : Ready staff types init.1)
    (pre post : List (Int × DutyType)) (htypes : ∀ p ∈ pre ++ post, p.2 ∈ types) :
    ∃ st fin done rest, runSteps school staff pre init = some st ∧
      Ready staff types st.1 ∧ st.2 = init.2 ++ done ∧ done.map slotOf = pre ∧
      (∀ i u, readCount st.1 i u =
        (readCount init.1 i u).map (fun m => m + assignedCount done i u)) ∧
      runSteps school staff post st = some fin ∧
      runSteps school staff (pre ++ post) init = some fin ∧
      fin.2 = st.2 ++ rest ∧ rest.map slotOf = post ∧
      (∀ i u, readCount fin.1 i u =
        (readCount st.1 i u).map (fun m => m + assignedCount rest i u)) := by
  obtain ⟨st, done, hrun, hst, hdone, hslots, hcounts, -⟩ :=
    runSteps_spec school staff types hstaff pre init hready
      (fun p hp => htypes p (List.mem_append_left _ hp))
  obtain ⟨fin, rest, hrun2, -, hrest, hslots2, hcounts2, -⟩ :=
    runSteps_spec school staff types hstaff post st hst
      (fun p hp => htypes p (List.mem_append_right _ hp))
  refine ⟨st, fin, done, rest, hrun, hst, hdone, hslots, hcounts, hrun2, ?_, hrest, hslots2,
    hcounts2⟩
  rw [runSteps_append, hrun]
  exact hrun2

/-- One step of a run, between the state before it and the state after it. -/
theorem run_step (school : String) (staff : List StaffMember) (types : List DutyType)
    (hstaff : staff ≠ []) (init : LoopState) (hready : Ready staff types init.1)
    (pre post : List (Int × DutyType)) (date : Int) (t : DutyType)
    (htypes : ∀ p ∈ pre ++ (date, t) :: post, p.2 ∈ types) :
    ∃ st s fin rest, runSteps school staff pre init = some st ∧
      Ready staff types st.1 ∧ st.2.length = init.2.length + pre.length ∧
      (sortBy (compareCounts st.1 t) staff).head? = some s ∧
      IsFirstMin (countOf st.1 t) staff s ∧
      assignDuty school staff st date t =
        some (incrementCount st.1 s.id t, st.2 ++ [assignmentOf school s date t]) ∧
      runSteps school staff (pre ++ [(date, t)]) init =
        some (incrementCount st.1 s.id t, st.2 ++ [assignmentOf school s date t]) ∧
      runSteps school staff (pre ++ (date, t) :: post) init = some fin ∧
      fin.2 = st.2 ++ assignmentOf school s date t :: rest := by
  obtain ⟨st, fin, done, rest, hrun, hst, hdone, hslots, -, hrun2, hrunAll, hrest, hslots2, -⟩ :=
    run_upto school staff types hstaff init hready pre ((date, t) :: post) htypes
  have ht : t ∈ types := htypes (date, t) (by simp)
  obtain ⟨s, hhead, hmin, hstep⟩ :=
    assignDuty_eq school staff st date t hstaff (fun x hx => (hst x hx).1)
      (uniform_of_ready staff types st.1 hst t ht)
  obtain ⟨fin', rest', hrun3, -, hrest', -, -, -⟩ :=
    runSteps_spec school staff types hstaff post
      (incrementCount st.1 s.id t, st.2 ++ [assignmentOf school s date t])
      (ready_incrementCount staff types st.1 s.id t hst) (fun p hp => htypes p (by simp [hp]))
  have hfin : fin = fin' := by
    rw [runSteps_cons, hstep] at hrun2
    have h3 : runSteps school staff post
        (incrementCount st.1 s.id t, st.2 ++ [assignmentOf school s date t])
        = some fin := hrun2
    rw [hrun3] at h3
    exact (Option.some.inj h3).symm
  refine ⟨st, s, fin, rest', hrun, hst, ?_, hhead, hmin, hstep, ?_, hrunAll, ?_⟩
  · rw [hdone, List.length_append, ← hslots, List.length_map]
  · rw [runSteps_append, hrun]
    show runSteps school staff [(date, t)] st = _
    rw [runSteps_cons, hstep]
    rfl
  · rw [hfin, hrest']
    simp

/-- A run whose user is known, whose staff read returns at least one member and
whose history read resolves builds a batch and sends it in one insert. -/
theorem generate_reaches_insert (w : World) (p : Params) (u : UserProfile)
    (staff : List StaffMember) (hist : Option (List DutyRecord)) (err err' : Option JsError)
    (hu : w.currentUser = some u) (hs : w.staffReply = .resolved (some staff) err)
    (hne : staff ≠ []) (hh : w.historyReply = .resolved hist err') :
    ∃ fin, buildRoster u.school_id staff hist w.tz p.startDate p.endDate p.dutyTypes = some fin ∧
      generateDutyRoster w p = (insertOutcome (w.insertReply fin.2),
        [.selectStaff u.school_id, .selectHistory u.school_id, .insertRoster fin.2]) := by
  obtain ⟨fin, hbuild, -⟩ :=
    buildRoster_spec u.school_id staff hist w.tz p.startDate p.endDate p.dutyTypes hne
  refine ⟨fin, hbuild, ?_⟩
  have hlen : ¬ staff.length = 0 := by
    intro h
    exact hne (List.length_eq_zero.mp h)
  unfold generateDutyRoster
  simp only [hu, hs, hh, hbuild, hlen, if_false]
  unfold insertOutcome
  cases hr : w.insertReply fin.2 with
  | rejected e => rfl
  | resolved data error =>
    cases data <;> cases error <;> rfl

/-! ## Claims -/

/-- For a duty type other than `__proto__`: at every assignment step of a run with a
non-empty staff list (the step at position `pre.length` of the working days × duty
types), all counts read are numbers, the staff member chosen is the head of the
sort by count, it is the first member in staff-list order whose count for the duty
type is the minimum over the staff, it is what the linear scan keeping the first
minimum returns, and the record generated at that step carries its id. -/
theorem selection_first_minimum (school : String) (staff : List StaffMember)
    (hist : Option (List DutyRecord)) (tz startDate endDate : Int) (types : List DutyType)
    (pre post : List (Int × DutyType)) (date : Int) (t : DutyType)
    (hstaff : staff ≠ []) (hp : t ≠ "__proto__")
    (hsteps : stepList (getWeekdays tz startDate endDate) types = pre ++ (date, t) :: post) :
    ∃ st s fin, runSteps school staff pre (startState staff hist types) = some st ∧
      (∀ x ∈ staff, (readCount st.1 x.id t).isSome = true) ∧
      (sortBy (compareCounts st.1 t) staff).head? = some s ∧
      (∃ before after, staff = before ++ s :: after ∧
        (∀ x ∈ before, countOf st.1 t s < countOf st.1 t x) ∧
        (∀ x ∈ after, countOf st.1 t s ≤ countOf st.1 t x)) ∧
      firstMinScan (countOf st.1 t) staff = some s ∧
      buildRoster school staff hist tz startDate endDate types = some fin ∧
      fin.2[pre.length]? = some (assignmentOf school s date t) := by
  have htypes : ∀ p ∈ pre ++ (date, t) :: post, p.2 ∈ types := by
    intro p hp
    rw [← hsteps] at hp
    exact ((mem_stepList _ _ p).mp hp).2
  obtain ⟨st, s, fin, rest, hrun, hst, hlen, hhead, hmin, -, -, hall, hfin⟩ :=
    run_step school staff types hstaff (startState staff hist types)
      (ready_start staff types hist) pre post date t htypes
  have ht : t ∈ types := htypes (date, t) (by simp)
  refine ⟨st, s, fin, hrun, fun x hx => (hst x hx).2 t ht hp, hhead, hmin, ?_, ?_, ?_⟩
  · rw [← head_sortBy_eq_firstMinScan st.1 t staff (uniform_of_ready staff types st.1 hst t ht),
      hhead]
  · rw [buildRoster_eq_runSteps, hsteps]
    exact hall
  · have hl : st.2.length = pre.length := by simpa [startState] using hlen
    rw [hfin, ← hl, List.getElem?_append_right (Nat.le_refl _)]
    simp

/-- The example of the specification: A, B, C with lunch counts 2, 0, 1 and two
working days; B is assigned on both days. -/
theorem selection_example :
    exampleStaff.map (fun s => readCount (startState exampleStaff (some exampleHistory)
        ["lunch_duty"]).1 s.id "lunch_duty") = [some 2, some 0, some 1] ∧
      getWeekdays 180 19723 19724 = [19723, 19724] ∧
      (runSteps "school" exampleStaff [(19723, "lunch_duty")]
        (startState exampleStaff (some exampleHistory) ["lunch_duty"])).map
          (fun st => (st.2.map (fun r => r.staff_id),
            exampleStaff.map (fun s => readCount st.1 s.id "lunch_duty")))
        = some (["B"], [some 2, some 1, some 1]) ∧
      (buildRoster "school" exampleStaff (some exampleHistory) 180 19723 19724
        ["lunch_duty"]).map (fun st => st.2.map (fun r => (r.duty_date, r.staff_id)))
        = some [(19723, "B"), (19724, "B")] := by
  refine ⟨by decide, by decide, by decide, by decide⟩

/-- C1 at the failing input: staff A, B, C without history, the working days
2024-01-01 to 2024-01-03 and the single duty type `__proto__`.  After the first
step A has one record and B and C have none, yet the value read for each of the
three is the prototype object and not a number; the comparator is `NaN` for every
pair, the sort leaves the staff in their order, and the next step assigns A again,
where the first member with the least number of duties is B.  All three records of
the batch go to A. -/
theorem C1_proto_key_selection :
    getWeekdays 180 19723 19725 = [19723, 19724, 19725] ∧
      (runSteps "school" exampleStaff [(19723, "__proto__")]
          (startState exampleStaff none ["__proto__"])).map
        (fun st => exampleStaff.map (fun s => (st.1 s.id).map (fun o => getCount o "__proto__")))
        = some [some (.inherited "__proto__"), some (.inherited "__proto__"),
            some (.inherited "__proto__")] ∧
      (runSteps "school" exampleStaff [(19723, "__proto__")]
          (startState exampleStaff none ["__proto__"])).map
        (fun st => (st.2.map (fun r => r.staff_id),
          exampleStaff.map (fun s => assignedCount st.2 s.id "__proto__"),
          (sortBy (compareCounts st.1 "__proto__") exampleStaff).map (fun s => s.id),
          (firstMinScan (fun s => assignedCount st.2 s.id "__proto__") exampleStaff).map
            (fun s => s.id)))
        = some (["A"], [1, 0, 0], ["A", "B", "C"], some "B") ∧
      (buildRoster "school" exampleStaff none 180 19723 19725 ["__proto__"]).map
          (fun st => st.2.map (fun r => (r.duty_date, r.staff_id)))
        = some [(19723, "A"), (19724, "A"), (19725, "A")] := by
  refine ⟨by decide, by decide, by decide, by decide⟩

/-- C2: with a known user, a non-empty active staff list and any resolved history,
the batch that `generateDutyRoster` sends to the store has exactly
(number of dates returned by `getWeekdays`) × (number of duty types) records. -/
theorem C2_batch_size (w : World) (p : Params) (u : UserProfile)
    (staff : List StaffMember) (hist : Option (List DutyRecord)) (err err' : Option JsError)
    (hu : w.currentUser = some u) (hs : w.staffReply = .resolved (some staff) err)
    (hne : staff ≠ []) (hh : w.historyReply = .resolved hist err') :
    ∃ roster, (generateDutyRoster w p).2 =
        [.selectStaff u.school_id, .selectHistory u.school_id, .insertRoster roster] ∧
      roster.length = (getWeekdays w.tz p.startDate p.endDate).length * p.dutyTypes.length := by
  obtain ⟨fin, hbuild, hgen⟩ := generate_reaches_insert w p u staff hist err err' hu hs hne hh
  obtain ⟨fin', hbuild', hslots, -, -⟩ :=
    buildRoster_spec u.school_id staff hist w.tz p.startDate p.endDate p.dutyTypes hne
  rw [hbuild] at hbuild'
  cases Option.some.inj hbuild'
  refine ⟨fin.2, by rw [hgen], ?_⟩
  rw [← length_stepList, ← hslots, List.length_map]

/-- C2 on the example: Monday 2024-01-01 to Sunday 2024-01-07 and two duty types. -/
theorem C2_batch_size_witness :
    ∃ roster, (generateDutyRoster exampleWorld ⟨19723, 19729, ["lunch_duty", "games_duty"]⟩).2 =
        [.selectStaff "school", .selectHistory "school", .insertRoster roster] ∧
      roster.length = (getWeekdays 180 19723 19729).length * 2 :=
  C2_batch_size exampleWorld ⟨19723, 19729, ["lunch_duty", "games_duty"]⟩ ⟨"school"⟩
    exampleStaff (some exampleHistory) none none rfl rfl (by decide) rfl

/-- C3, as stated, fails: with the duty type `lunch_duty` requested twice, the pair
(2024-01-01, `lunch_duty`) occurs in two records, assigned to two staff members. -/
theorem C3_repeated_type_counterexample :
    (19723 : Int) ∈ getWeekdays 180 19723 19723 ∧ "lunch_duty" ∈ repeatedTypes ∧
      (buildRoster "school" exampleStaff none 180 19723 19723 repeatedTypes).map
          (fun st => st.2.map (fun r => (r.duty_date, r.duty_type, r.staff_id)))
        = some [(19723, "lunch_duty", "A"), (19723, "lunch_duty", "B")] ∧
      (buildRoster "school" exampleStaff none 180 19723 19723 repeatedTypes).map
          (fun st => slotCount st.2 19723 "lunch_duty") = some 2 := by
  decide

/-- C3, amended: with a non-empty staff list the batch is built; every record is for a
date that `getWeekdays` returns and a duty type of `dutyTypes` and is assigned to a
member of the staff list; for every date and duty type the number of records of
the pair is the number of times `getWeekdays` returns the date times the number of
times the duty type occurs in `dutyTypes`; so a pair of a date returned once and a
duty type listed once has exactly one record. -/
theorem C3_slot_coverage (school : String) (staff : List StaffMember)
    (hist : Option (List DutyRecord)) (tz startDate endDate : Int) (types : List DutyType)
    (hstaff : staff ≠ []) :
    ∃ fin, buildRoster school staff hist tz startDate endDate types = some fin ∧
      (∀ r ∈ fin.2, r.duty_date ∈ getWeekdays tz startDate endDate ∧ r.duty_type ∈ types ∧
        ∃ s ∈ staff, r.staff_id = s.id) ∧
      (∀ d t, slotCount fin.2 d t =
        (getWeekdays tz startDate endDate).count d * types.count t) ∧
      (∀ d t, (getWeekdays tz startDate endDate).count d = 1 → types.count t = 1 →
        slotCount fin.2 d t = 1) := by
  obtain ⟨fin, hbuild, hslots, hrecs, -⟩ :=
    buildRoster_spec school staff hist tz startDate endDate types hstaff
  have hcount : ∀ d t, slotCount fin.2 d t =
      (getWeekdays tz startDate endDate).count d * types.count t := by
    intro d t
    rw [slotCount_eq_count, hslots, count_stepList]
  refine ⟨fin, hbuild, ?_, hcount, ?_⟩
  · intro r hr
    have hmem : slotOf r ∈ stepList (getWeekdays tz startDate endDate) types := by
      rw [← hslots]
      exact List.mem_map_of_mem _ hr
    have h := (mem_stepList _ _ _).mp hmem
    obtain ⟨s, hs, hrs⟩ := hrecs r hr
    refine ⟨h.1, h.2, s, hs, ?_⟩
    rw [hrs]
    rfl
  · intro d t hd ht
    rw [hcount d t, hd, ht]

/-- C3 (amended) on the example: one week, two distinct duty types. -/
theorem C3_slot_coverage_witness :
    ∃ fin, buildRoster "school" exampleStaff (some exampleHistory) 180 19723 19729
        ["lunch_duty", "games_duty"] = some fin ∧
      (∀ r ∈ fin.2, r.duty_date ∈ getWeekdays 180 19723 19729 ∧
        r.duty_type ∈ ["lunch_duty", "games_duty"] ∧ ∃ s ∈ exampleStaff, r.staff_id = s.id) ∧
      (∀ d t, slotCount fin.2 d t =
        (getWeekdays 180 19723 19729).count d * ["lunch_duty", "games_duty"].count t) ∧
      (∀ d t, (getWeekdays 180 19723 19729).count d = 1 →
        ["lunch_duty", "games_duty"].count t = 1 → slotCount fin.2 d t = 1) :=
  C3_slot_coverage "school" exampleStaff (some exampleHistory) 180 19723 19729
    ["lunch_duty", "games_duty"] (by decide)

/-- The slip of `getWeekdays` west of UTC seen on the batch: in a browser five hours
west of UTC, for the range Friday 2024-01-05 to Monday 2024-01-08 and the duty type
`lunch_duty`, the working days of the range are the Friday and the Monday; the
batch has a record for the Friday and one for the Saturday, and none for the
Monday. -/
theorem working_day_without_record :
    (dayRange 19727 19730).filter isWorkingDay = [19727, 19730] ∧
      weekdayOf 19730 = 1 ∧ weekdayOf 19728 = 6 ∧
      (buildRoster "school" exampleStaff none (-300) 19727 19730 ["lunch_duty"]).map
          (fun st => (st.2.map (fun r => (r.duty_date, r.duty_type, r.staff_id)),
            slotCount st.2 19727 "lunch_duty", slotCount st.2 19728 "lunch_duty",
            slotCount st.2 19730 "lunch_duty"))
        = some ([(19727, "lunch_duty", "A"), (19728, "lunch_duty", "B")], 1, 1, 0) := by
  decide

/-- C4 at the failing input: in a browser five hours west of UTC, `getWeekdays` for
the single day 2024-01-06 returns that day, which is a Saturday, and the generated
record carries it as `duty_date`; for Monday 2024-01-08 it returns nothing. -/
theorem C4_weekend_in_western_zone :
    getWeekdays (-300) 19728 19728 = [19728] ∧ weekdayOf 19728 = 6 ∧
      (buildRoster "school" exampleStaff none (-300) 19728 19728 ["lunch_duty"]).map
          (fun st => st.2.map (fun r => (r.duty_date, weekdayOf r.duty_date)))
        = some [(19728, 6)] ∧
      weekdayOf 19730 = 1 ∧ getWeekdays (-300) 19730 19730 = [] := by
  decide

/-! ## Maximum and minimum over the staff -/

theorem le_maxOver {α : Type} (f : α → Nat) (l : List α) (x : α) (hx : x ∈ l) :
    f x ≤ maxOver f l := by
  induction l with
  | nil => simp at hx
  | cons a l ih =>
    unfold maxOver
    rcases List.mem_cons.mp hx with rfl | hx
    · exact Nat.le_max_left _ _
    · exact Nat.le_trans (ih hx) (Nat.le_max_right _ _)

theorem minOver_le {α : Type} (f : α → Nat) (l : List α) (x : α) (hx : x ∈ l) :
    minOver f l ≤ f x := by
  induction l with
  | nil => simp at hx
  | cons a l ih =>
    cases l with
    | nil =>
      simp only [List.mem_singleton] at hx
      subst hx
      exact Nat.le_refl _
    | cons b l =>
      unfold minOver
      rcases List.mem_cons.mp hx with rfl | hx
      · exact Nat.min_le_left _ _
      · exact Nat.le_trans (Nat.min_le_right _ _) (ih hx)

theorem maxOver_attained {α : Type} (f : α → Nat) (l : List α) (hl : l ≠ []) :
    ∃ x ∈ l, f x = maxOver f l := by
  induction l with
  | nil => exact absurd rfl hl
  | cons a l ih =>
    cases l with
    | nil => exact ⟨a, by simp, by simp [maxOver]⟩
    | cons b l =>
      obtain ⟨x, hx, hfx⟩ := ih (by simp)
      unfold maxOver
      by_cases h : f a ≤ maxOver f (b :: l)
      · exact ⟨x, List.mem_cons_of_mem _ hx, by rw [hfx, Nat.max_eq_right h]⟩
      · exact ⟨a, List.mem_cons_self _ _, by rw [Nat.max_eq_left (by omega)]⟩

theorem minOver_attained {α : Type} (f : α → Nat) (l : List α) (hl : l ≠ []) :
    ∃ x ∈ l, f x = minOver f l := by
  induction l with
  | nil => exact absurd rfl hl
  | cons a l ih =>
    cases l with
    | nil => exact ⟨a, by simp, by simp [minOver]⟩
    | cons b l =>
      obtain ⟨x, hx, hfx⟩ := ih (by simp)
      unfold minOver
      by_cases h : f a ≤ minOver f (b :: l)
      · exact ⟨a, List.mem_cons_self _ _, by rw [Nat.min_eq_left h]⟩
      · exact ⟨x, List.mem_cons_of_mem _ hx, by rw [hfx, Nat.min_eq_right (by omega)]⟩

theorem minOver_le_maxOver {α : Type} (f : α → Nat) (l : List α) :
    minOver f l ≤ maxOver f l := by
  cases l with
  | nil => simp [minOver, maxOver]
  | cons a l =>
    exact Nat.le_trans (minOver_le f (a :: l) a (List.mem_cons_self _ _))
      (le_maxOver f (a :: l) a (List.mem_cons_self _ _))

theorem maxOver_le_succ {α : Type} (f g : α → Nat) (l : List α)
    (h : ∀ x ∈ l, g x ≤ f x + 1) : maxOver g l ≤ maxOver f l + 1 := by
  cases l with
  | nil => simp [maxOver]
  | cons a l =>
    obtain ⟨x, hx, hgx⟩ := maxOver_attained g (a :: l) (by simp)
    have h1 := h x hx
    have h2 := le_maxOver f (a :: l) x hx
    omega

theorem minOver_mono {α : Type} (f g : α → Nat) (l : List α)
    (h : ∀ x ∈ l, f x ≤ g x) : minOver f l ≤ minOver g l := by
  cases l with
  | nil => simp [minOver]
  | cons a l =>
    obtain ⟨x, hx, hgx⟩ := minOver_attained g (a :: l) (by simp)
    have h1 := h x hx
    have h2 := minOver_le f (a :: l) x hx
    omega

theorem countOf_incrementCount (dc : DutyCounts) (id : StaffId) (t u : DutyType)
    (x : StaffMember) :
    countOf (incrementCount dc id t) u x =
      if x.id = id ∧ u = t ∧ (readCount dc id t).isSome = true then countOf dc u x + 1
      else countOf dc u x := by
  unfold countOf
  rw [readCount_incrementCount]
  by_cases hc : x.id = id ∧ u = t
  · obtain ⟨rfl, rfl⟩ := hc
    cases hr : readCount dc x.id u <;> simp
  · have hc' : ¬ (x.id = id ∧ u = t ∧ (readCount dc id t).isSome = true) :=
      fun h => hc ⟨h.1, h.2.1⟩
    rw [if_neg hc']
    cases hr : readCount dc x.id u <;> simp [hc]

theorem countOf_bump (dc : DutyCounts) (id : StaffId) (t : DutyType) (n : Nat)
    (h : readCount dc id t = some n) (u : DutyType) (x : StaffMember) :
    countOf (incrementCount dc id t) u x =
      if x.id = id ∧ u = t then countOf dc u x + 1 else countOf dc u x := by
  rw [countOf_incrementCount]
  simp [h]

theorem countOf_incrementCount_le (dc : DutyCounts) (id : StaffId) (t u : DutyType)
    (x : StaffMember) : countOf (incrementCount dc id t) u x ≤ countOf dc u x + 1 := by
  rw [countOf_incrementCount]
  split <;> omega

theorem countOf_le_incrementCount (dc : DutyCounts) (id : StaffId) (t u : DutyType)
    (x : StaffMember) : countOf dc u x ≤ countOf (incrementCount dc id t) u x := by
  rw [countOf_incrementCount]
  split <;> omega

theorem assignedCount_append (a b : List DutyAssignment) (i : StaffId) (u : DutyType) :
    assignedCount (a ++ b) i u = assignedCount a i u + assignedCount b i u := by
  unfold assignedCount
  rw [List.filter_append, List.length_append]

/-- C5: at every assignment step of a run, for every duty type, the spread (maximum
count minus minimum count over the staff) after the step is at most the spread
before the step plus one. -/
theorem C5_spread_step (school : String) (staff : List StaffMember)
    (hist : Option (List DutyRecord)) (tz startDate endDate : Int) (types : List DutyType)
    (pre post : List (Int × DutyType)) (date : Int) (t : DutyType) (hstaff : staff ≠ [])
    (hsteps : stepList (getWeekdays tz startDate endDate) types = pre ++ (date, t) :: post) :
    ∃ st st1, runSteps school staff pre (startState staff hist types) = some st ∧
      assignDuty school staff st date t = some st1 ∧
      runSteps school staff (pre ++ [(date, t)]) (startState staff hist types) = some st1 ∧
      ∀ u, spread st1.1 u staff ≤ spread st.1 u staff + 1 := by
  have htypes : ∀ p ∈ pre ++ (date, t) :: post, p.2 ∈ types := by
    intro p hp
    rw [← hsteps] at hp
    exact ((mem_stepList _ _ p).mp hp).2
  obtain ⟨st, s, fin, rest, hrun, -, -, -, -, hstep, hrun1, -, -⟩ :=
    run_step school staff types hstaff (startState staff hist types)
      (ready_start staff types hist) pre post date t htypes
  refine ⟨st, _, hrun, hstep, hrun1, ?_⟩
  intro u
  have hmax := maxOver_le_succ (countOf st.1 u)
    (countOf (incrementCount st.1 s.id t) u) staff
    (fun x _ => countOf_incrementCount_le st.1 s.id t u x)
  have hmin := minOver_mono (countOf st.1 u)
    (countOf (incrementCount st.1 s.id t) u) staff
    (fun x _ => countOf_le_incrementCount st.1 s.id t u x)
  have hle := minOver_le_maxOver (countOf st.1 u) staff
  unfold spread
  simp only
  omega

/-- C5 at the first step of the example of the specification. -/
theorem C5_spread_step_witness :
    ∃ st st1, runSteps "school" exampleStaff [] (startState exampleStaff
        (some exampleHistory) ["lunch_duty"]) = some st ∧
      assignDuty "school" exampleStaff st 19723 "lunch_duty" = some st1 ∧
      runSteps "school" exampleStaff ([] ++ [(19723, "lunch_duty")]) (startState exampleStaff
        (some exampleHistory) ["lunch_duty"]) = some st1 ∧
      ∀ u, spread st1.1 u exampleStaff ≤ spread st.1 u exampleStaff + 1 :=
  C5_spread_step "school" exampleStaff (some exampleHistory) 180 19723 19724 ["lunch_duty"]
    [] [(19724, "lunch_duty")] 19723 "lunch_duty" (by decide) (by decide)

/-- For a duty type other than `__proto__`: after any number of steps of a run, the
count of a staff member is the number of history rows for the pair plus the number
of records generated so far for it, and it is not smaller after further steps. -/
theorem counts_track_assignments (school : String) (staff : List StaffMember)
    (hist : Option (List DutyRecord)) (tz startDate endDate : Int) (types : List DutyType)
    (pre mid post : List (Int × DutyType)) (hstaff : staff ≠ [])
    (hsteps : stepList (getWeekdays tz startDate endDate) types = pre ++ mid ++ post) :
    ∃ st st', runSteps school staff pre (startState staff hist types) = some st ∧
      runSteps school staff (pre ++ mid) (startState staff hist types) = some st' ∧
      ∀ s ∈ staff, ∀ t ∈ types, t ≠ "__proto__" → ∃ n n', readCount st.1 s.id t = some n ∧
        readCount st'.1 s.id t = some n' ∧ n ≤ n' ∧
        n = historyCount hist s.id t + assignedCount st.2 s.id t ∧
        n' = historyCount hist s.id t + assignedCount st'.2 s.id t := by
  have htypes : ∀ p ∈ pre ++ mid, p.2 ∈ types := by
    intro p hp
    have : p ∈ stepList (getWeekdays tz startDate endDate) types := by
      rw [hsteps]
      exact List.mem_append_left _ hp
    exact ((mem_stepList _ _ p).mp this).2
  obtain ⟨st, st', done, rest, hrun, -, hdone, -, hcounts, -, hrun', hrest, -, hcounts'⟩ :=
    run_upto school staff types hstaff (startState staff hist types)
      (ready_start staff types hist) pre mid htypes
  refine ⟨st, st', hrun, hrun', ?_⟩
  intro s hs t ht hp
  have hstart : readCount (startState staff hist types).1 s.id t
      = some (historyCount hist s.id t) := by
    unfold startState
    rw [readCount_start]
    have : s.id ∈ staff.map (fun s => s.id) := List.mem_map.mpr ⟨s, hs, rfl⟩
    simp [this, ht, hp]
  have hd : st.2 = done := by simpa [startState] using hdone
  have h1 : readCount st.1 s.id t
      = some (historyCount hist s.id t + assignedCount st.2 s.id t) := by
    rw [hcounts, hstart, hd]
    rfl
  have h2 : readCount st'.1 s.id t
      = some (historyCount hist s.id t + assignedCount st'.2 s.id t) := by
    rw [hcounts', h1, hrest, assignedCount_append]
    simp only [Option.map_some', Option.some.injEq]
    omega
  refine ⟨_, _, h1, h2, ?_, rfl, rfl⟩
  rw [hrest, assignedCount_append]
  omega

/-- C6 at the failing input: staff A, B, C without history, the working days
2024-01-01 to 2024-01-03 and the single duty type `__proto__`.  After the run A has
three records of that type, yet the value read as the count of A for it is the
prototype object, as it was before the first step: no number is stored, and
history plus generated records is 3. -/
theorem C6_proto_count_not_tracked :
    ((startState exampleStaff none ["__proto__"]).1 "A").map (fun o => getCount o "__proto__")
        = some (.inherited "__proto__") ∧
      (buildRoster "school" exampleStaff none 180 19723 19725 ["__proto__"]).map
          (fun st => ((st.1 "A").map (fun o => getCount o "__proto__"),
            readCount st.1 "A" "__proto__"))
        = some (some (.inherited "__proto__"), none) ∧
      (buildRoster "school" exampleStaff none 180 19723 19725 ["__proto__"]).map
          (fun st => historyCount none "A" "__proto__" + assignedCount st.2 "A" "__proto__")
        = some 3 := by
  refine ⟨by decide, by decide, by decide⟩

/-- For the duty types other than `__proto__`: before the first assignment, the count
of every staff member and requested duty type is the number of fetched history
rows with that staff id and duty type (zero for a missing history), and a history
row whose staff id is not in the staff list or whose duty type is not requested
changes no count that is a number. -/
theorem initial_counts (staff : List StaffMember) (types : List DutyType) :
    (∀ (hist : Option (List DutyRecord)), ∀ s ∈ staff, ∀ t ∈ types, t ≠ "__proto__" →
      readCount (startState staff hist types).1 s.id t = some (historyCount hist s.id t)) ∧
    (∀ s ∈ staff, ∀ t ∈ types, t ≠ "__proto__" →
      readCount (startState staff none types).1 s.id t = some 0) ∧
    (∀ (before after : List DutyRecord) (d : DutyRecord),
      (d.staff_id ∉ staff.map (fun s => s.id) ∨ d.duty_type ∉ types) →
      ∀ i u, readCount (countHistory (initCounts staff types) (some (before ++ d :: after))) i u =
        readCount (countHistory (initCounts staff types) (some (before ++ after))) i u) := by
  have hstart : ∀ (hist : Option (List DutyRecord)), ∀ s ∈ staff, ∀ t ∈ types,
      t ≠ "__proto__" →
      readCount (startState staff hist types).1 s.id t = some (historyCount hist s.id t) := by
    intro hist s hs t ht hp
    unfold startState
    rw [readCount_start]
    have : s.id ∈ staff.map (fun s => s.id) := List.mem_map.mpr ⟨s, hs, rfl⟩
    simp [this, ht, hp]
  refine ⟨hstart, fun s hs t ht hp => hstart none s hs t ht hp, ?_⟩
  intro before after d hd i u
  rw [readCount_start, readCount_start]
  by_cases hc : i ∈ staff.map (fun s => s.id) ∧ u ∈ types ∧ u ≠ "__proto__"
  · rw [if_pos hc, if_pos hc]
    have hne : ¬ (d.staff_id = i ∧ d.duty_type = u) := by
      rintro ⟨rfl, rfl⟩
      rcases hd with hd | hd
      · exact hd hc.1
      · exact hd hc.2.1
    simp [historyCount, List.filter_append, List.filter_cons, hne]
  · rw [if_neg hc, if_neg hc]

/-- The example of the specification: before the first assignment A, B and C have
the lunch-duty counts 2, 0 and 1 of the history. -/
theorem initial_counts_example :
    exampleStaff.map (fun s =>
        readCount (startState exampleStaff (some exampleHistory) ["lunch_duty"]).1 s.id
          "lunch_duty") = [some 2, some 0, some 1] ∧
      exampleStaff.map (fun s => historyCount (some exampleHistory) s.id "lunch_duty")
        = [2, 0, 1] := by
  refine ⟨by decide, by decide⟩

/-- C7 at the failing input: staff A, B, C and the single requested duty type
`__proto__`.  Without history the value read as the count of A before the first
assignment is the prototype object, not 0; with one history row for A and
`__proto__` it is the same object, not 1, although the row passes the test of the
history loop and is incremented. -/
theorem C7_proto_initial_count :
    ((startState exampleStaff none ["__proto__"]).1 "A").map (fun o => getCount o "__proto__")
        = some (.inherited "__proto__") ∧
      readCount (startState exampleStaff none ["__proto__"]).1 "A" "__proto__" = none ∧
      historyCount (some [⟨"A", "__proto__"⟩]) "A" "__proto__" = 1 ∧
      ((startState exampleStaff (some [⟨"A", "__proto__"⟩]) ["__proto__"]).1 "A").map
          (fun o => getCount o "__proto__") = some (.inherited "__proto__") ∧
      readCount (startState exampleStaff (some [⟨"A", "__proto__"⟩]) ["__proto__"]).1 "A"
          "__proto__" = none := by
  refine ⟨by decide, by decide, by decide, by decide, by decide⟩

/-- C8: when the staff read returns no list or an empty list, the result is the
failure `No active staff available`, the staff read is the only store call, and no
insert is made, whatever the dates and duty types. -/
theorem C8_no_staff_failure (w : World) (p : Params) (u : UserProfile) (err : Option JsError)
    (hu : w.currentUser = some u)
    (hs : w.staffReply = .resolved none err ∨ w.staffReply = .resolved (some []) err) :
    generateDutyRoster w p =
        (.failure "No active staff available", [.selectStaff u.school_id]) ∧
      insertCount (generateDutyRoster w p).2 = 0 := by
  have h : generateDutyRoster w p =
      (.failure "No active staff available", [.selectStaff u.school_id]) := by
    unfold generateDutyRoster
    rcases hs with hs | hs
    · simp only [hu, hs]
      rfl
    · simp only [hu, hs, List.length_nil, if_true]
      rfl
  exact ⟨h, by rw [h]; rfl⟩

/-- C8 on a world whose staff read returns the empty list. -/
theorem C8_no_staff_failure_witness :
    generateDutyRoster noStaffWorld ⟨19723, 19729, ["lunch_duty"]⟩ =
        (.failure "No active staff available", [.selectStaff "school"]) ∧
      insertCount (generateDutyRoster noStaffWorld ⟨19723, 19729, ["lunch_duty"]⟩).2 = 0 :=
  C8_no_staff_failure noStaffWorld ⟨19723, 19729, ["lunch_duty"]⟩ ⟨"school"⟩ none rfl
    (Or.inr rfl)

/-- C9, as stated, fails for the history read: when the store refuses it (error set,
`data` null) the run still builds a batch, inserts it and reports success. -/
theorem C9_history_error_counterexample :
    historyErrorWorld.historyReply =
        .resolved none (some ⟨"permission denied for table duty_roster"⟩) ∧
      generateDutyRoster historyErrorWorld ⟨19723, 19723, ["lunch_duty"]⟩ =
        (.success 1 "Generated 1 duty assignments",
          [.selectStaff "school", .selectHistory "school",
            .insertRoster [⟨"school", "A", "lunch_duty", 19723, some "12:00",
              some "13:00", .own "Dining Hall"⟩]]) ∧
      insertCount (generateDutyRoster historyErrorWorld ⟨19723, 19723, ["lunch_duty"]⟩).2
        = 1 := by
  refine ⟨rfl, by decide, by decide⟩

/-- C9, amended: a staff read that fails (rejected, or resolved with an error and no
data) and a history read that is rejected end the run with a failure result and no
insert; a history read that resolves with an error and no data does not end the
run, which goes on exactly as with an empty history. -/
theorem C9_failed_reads (w : World) (p : Params) :
    (∀ e, (w.staffReply = .rejected e ∨ w.staffReply = .resolved none (some e)) →
      (∃ msg, (generateDutyRoster w p).1 = .failure msg) ∧
        insertCount (generateDutyRoster w p).2 = 0) ∧
    (∀ e, w.historyReply = .rejected e →
      (∃ msg, (generateDutyRoster w p).1 = .failure msg) ∧
        insertCount (generateDutyRoster w p).2 = 0) ∧
    (∀ e, w.historyReply = .resolved none (some e) →
      generateDutyRoster w p =
        generateDutyRoster { w with historyReply := .resolved (some []) none } p) := by
  refine ⟨?_, ?_, ?_⟩
  · intro e hs
    unfold generateDutyRoster
    cases hu : w.currentUser with
    | none => exact ⟨⟨_, rfl⟩, rfl⟩
    | some u =>
      rcases hs with hs | hs
      · simp only [hs]
        exact ⟨⟨_, rfl⟩, rfl⟩
      · simp only [hs]
        exact ⟨⟨_, rfl⟩, rfl⟩
  · intro e hh
    unfold generateDutyRoster
    cases hu : w.currentUser with
    | none => exact ⟨⟨_, rfl⟩, rfl⟩
    | some u =>
      cases hs : w.staffReply with
      | rejected e' => exact ⟨⟨_, rfl⟩, rfl⟩
      | resolved data err =>
        cases data with
        | none => exact ⟨⟨_, rfl⟩, rfl⟩
        | some staff =>
          simp only [hh]
          by_cases hl : staff.length = 0
          · simp only [hl, if_true]
            exact ⟨⟨_, rfl⟩, rfl⟩
          · simp only [hl, if_false]
            exact ⟨⟨_, rfl⟩, rfl⟩
  · intro e hh
    unfold generateDutyRoster
    simp only [hh]
    rfl

/-- C9 (amended) on a world whose history read is rejected. -/
theorem C9_failed_reads_witness :
    (∃ msg, (generateDutyRoster { exampleWorld with historyReply := .rejected ⟨"offline"⟩ }
        ⟨19723, 19729, ["lunch_duty"]⟩).1 = .failure msg) ∧
      insertCount (generateDutyRoster { exampleWorld with historyReply := .rejected ⟨"offline"⟩ }
        ⟨19723, 19729, ["lunch_duty"]⟩).2 = 0 :=
  (C9_failed_reads { exampleWorld with historyReply := .rejected ⟨"offline"⟩ }
    ⟨19723, 19729, ["lunch_duty"]⟩).2.1 ⟨"offline"⟩ rfl

/-- C10: when the store refuses the insert of the generated batch with error `e`
(by rejecting or by resolving with `e`), the result is the failure carrying
`e.message`, and the store calls are the two reads followed by exactly one insert,
of the whole batch. -/
theorem C10_insert_rejected (w : World) (p : Params) (u : UserProfile)
    (staff : List StaffMember) (hist : Option (List DutyRecord)) (err err' : Option JsError)
    (e : JsError) (hu : w.currentUser = some u)
    (hs : w.staffReply = .resolved (some staff) err) (hne : staff ≠ [])
    (hh : w.historyReply = .resolved hist err')
    (hins : ∀ fin, buildRoster u.school_id staff hist w.tz p.startDate p.endDate p.dutyTypes
        = some fin →
      w.insertReply fin.2 = .rejected e ∨
        ∃ data, w.insertReply fin.2 = .resolved data (some e)) :
    (generateDutyRoster w p).1 = .failure e.message ∧
      insertCount (generateDutyRoster w p).2 = 1 ∧
      ∃ fin, buildRoster u.school_id staff hist w.tz p.startDate p.endDate p.dutyTypes
          = some fin ∧
        (generateDutyRoster w p).2 =
          [.selectStaff u.school_id, .selectHistory u.school_id, .insertRoster fin.2] := by
  obtain ⟨fin, hbuild, hgen⟩ := generate_reaches_insert w p u staff hist err err' hu hs hne hh
  rw [hgen]
  refine ⟨?_, rfl, fin, hbuild, rfl⟩
  rcases hins fin hbuild with h | ⟨data, h⟩
  · simp only [h, insertOutcome]
  · simp only [h, insertOutcome]

/-- C10 on a world whose store refuses every insert. -/
theorem C10_insert_rejected_witness :
    (generateDutyRoster insertErrorWorld ⟨19723, 19729, ["lunch_duty"]⟩).1 =
        .failure "duplicate key value" ∧
      insertCount (generateDutyRoster insertErrorWorld ⟨19723, 19729, ["lunch_duty"]⟩).2 = 1 ∧
      ∃ fin, buildRoster "school" exampleStaff (some exampleHistory) 180 19723 19729
          ["lunch_duty"] = some fin ∧
        (generateDutyRoster insertErrorWorld ⟨19723, 19729, ["lunch_duty"]⟩).2 =
          [.selectStaff "school", .selectHistory "school", .insertRoster fin.2] :=
  C10_insert_rejected insertErrorWorld ⟨19723, 19729, ["lunch_duty"]⟩ ⟨"school"⟩
    exampleStaff (some exampleHistory) none none ⟨"duplicate key value"⟩ rfl rfl (by decide) rfl
    (fun _ _ => Or.inr ⟨none, rfl⟩)

/-! ## Degenerate inputs -/

/-- With the start after the end the loop body never runs, whatever the fuel. -/
theorem getWeekdaysLoop_after (tz : Int) (startDate endDate : Int) (h : endDate < startDate)
    (fuel : Nat) (dates : List Int) :
    getWeekdaysLoop tz (newDate endDate) fuel (newDate startDate) dates = dates := by
  have hc : ¬ newDate startDate ≤ newDate endDate := by
    unfold newDate MS_PER_DAY
    omega
  cases fuel with
  | zero => rfl
  | succ n => simp [getWeekdaysLoop, hc]

theorem stepList_nil_types (days : List Int) : stepList days [] = [] := by
  induction days with
  | nil => rfl
  | cons d ds ih => rw [stepList_cons, ih]; rfl

/-- When the insert of the generated batch resolves with the persisted records `data`
and no error, the result is the success object whose count is the number of
records in `data` and whose message is `Generated <count> duty assignments`; the
store calls are the two reads and that one insert. -/
theorem success_count (w : World) (p : Params) (u : UserProfile)
    (staff : List StaffMember) (hist : Option (List DutyRecord)) (err err' : Option JsError)
    (data : List DutyAssignment) (hu : w.currentUser = some u)
    (hs : w.staffReply = .resolved (some staff) err) (hne : staff ≠ [])
    (hh : w.historyReply = .resolved hist err')
    (hins : ∀ fin, buildRoster u.school_id staff hist w.tz p.startDate p.endDate p.dutyTypes
        = some fin → w.insertReply fin.2 = .resolved (some data) none) :
    ∃ fin, buildRoster u.school_id staff hist w.tz p.startDate p.endDate p.dutyTypes
        = some fin ∧
      generateDutyRoster w p =
        (.success data.length ("Generated " ++ toString data.length ++ " duty assignments"),
          [.selectStaff u.school_id, .selectHistory u.school_id, .insertRoster fin.2]) := by
  obtain ⟨fin, hbuild, hgen⟩ := generate_reaches_insert w p u staff hist err err' hu hs hne hh
  refine ⟨fin, hbuild, ?_⟩
  rw [hgen, hins fin hbuild]
  rfl

/-- C11 at the failing input: staff A, B, C, the single day 2024-01-01, the duty type
`lunch_duty` and a store that accepts the insert.  The result is the success object
with the count 1 and a message; it carries no records.  A store that reports
another persisted record for the same batch leads to the same result object, so
the persisted records cannot be read off the result. -/
theorem C11_result_without_records :
    (∃ batch, (generateDutyRoster exampleWorld ⟨19723, 19723, ["lunch_duty"]⟩).2 =
        [.selectStaff "school", .selectHistory "school", .insertRoster batch] ∧
      (generateDutyRoster relocatingWorld ⟨19723, 19723, ["lunch_duty"]⟩).2 =
        [.selectStaff "school", .selectHistory "school", .insertRoster batch] ∧
      exampleWorld.insertReply batch = .resolved (some batch) none ∧
      relocatingWorld.insertReply batch = .resolved (some [relocatedRecord]) none ∧
      batch ≠ [relocatedRecord]) ∧
    (generateDutyRoster exampleWorld ⟨19723, 19723, ["lunch_duty"]⟩).1 =
      .success 1 "Generated 1 duty assignments" ∧
    (generateDutyRoster relocatingWorld ⟨19723, 19723, ["lunch_duty"]⟩).1 =
      .success 1 "Generated 1 duty assignments" := by
  refine ⟨⟨[⟨"school", "B", "lunch_duty", 19723, some "12:00", some "13:00",
    .own "Dining Hall"⟩], by decide, by decide, rfl, rfl, by decide⟩, by decide, by decide⟩

/-- C12: when the start date is after the end date, `getWeekdays` returns the empty
list (its loop condition fails at once, for any fuel); with at least one active
staff member and reads that resolve, the batch is empty, it is still sent in one
insert, and a store that accepts it (reporting no record) yields the success
result with count 0. -/
theorem C12_degenerate_range (w : World) (p : Params) (u : UserProfile)
    (staff : List StaffMember) (hist : Option (List DutyRecord)) (err err' : Option JsError)
    (hrange : p.endDate < p.startDate) (hu : w.currentUser = some u)
    (hs : w.staffReply = .resolved (some staff) err) (hne : staff ≠ [])
    (hh : w.historyReply = .resolved hist err')
    (hins : w.insertReply [] = .resolved (some []) none) :
    getWeekdays w.tz p.startDate p.endDate = [] ∧
      (∀ fuel, getWeekdaysLoop w.tz (newDate p.endDate) fuel (newDate p.startDate) [] = []) ∧
      (∃ dc, buildRoster u.school_id staff hist w.tz p.startDate p.endDate p.dutyTypes
        = some (dc, [])) ∧
      generateDutyRoster w p =
        (.success 0 "Generated 0 duty assignments",
          [.selectStaff u.school_id, .selectHistory u.school_id, .insertRoster []]) := by
  have hdays : getWeekdays w.tz p.startDate p.endDate = [] :=
    getWeekdaysLoop_after w.tz p.startDate p.endDate hrange _ []
  have hbuild : buildRoster u.school_id staff hist w.tz p.startDate p.endDate p.dutyTypes
      = some (startState staff hist p.dutyTypes) := by
    rw [buildRoster_eq_runSteps, hdays]
    rfl
  refine ⟨hdays, fun fuel => getWeekdaysLoop_after w.tz p.startDate p.endDate hrange fuel [],
    ⟨_, hbuild⟩, ?_⟩
  obtain ⟨fin, hfin, hgen⟩ := generate_reaches_insert w p u staff hist err err' hu hs hne hh
  rw [hbuild] at hfin
  cases Option.some.inj hfin
  rw [hgen]
  show (insertOutcome (w.insertReply []), _) = _
  rw [hins]
  rfl

/-- C12 on the example world, from Friday 2024-01-05 back to Monday 2024-01-01. -/
theorem C12_degenerate_range_witness :
    getWeekdays 180 19727 19723 = [] ∧
      (∀ fuel, getWeekdaysLoop 180 (newDate 19723) fuel (newDate 19727) [] = []) ∧
      (∃ dc, buildRoster "school" exampleStaff (some exampleHistory) 180 19727 19723
        ["lunch_duty"] = some (dc, [])) ∧
      generateDutyRoster exampleWorld ⟨19727, 19723, ["lunch_duty"]⟩ =
        (.success 0 "Generated 0 duty assignments",
          [.selectStaff "school", .selectHistory "school", .insertRoster []]) :=
  C12_degenerate_range exampleWorld ⟨19727, 19723, ["lunch_duty"]⟩ ⟨"school"⟩ exampleStaff
    (some exampleHistory) none none (by decide) rfl rfl (by decide) rfl rfl

/-- C13: with an empty `dutyTypes` and at least one active staff member, for every
date range the batch is empty and is sent in one insert; the result is whatever
the store answers to that insert, so a store that accepts it yields success with
count 0 and no error arises from the empty list. -/
theorem C13_empty_duty_types (w : World) (p : Params) (u : UserProfile)
    (staff : List StaffMember) (hist : Option (List DutyRecord)) (err err' : Option JsError)
    (htypes : p.dutyTypes = []) (hu : w.currentUser = some u)
    (hs : w.staffReply = .resolved (some staff) err) (hne : staff ≠ [])
    (hh : w.historyReply = .resolved hist err') :
    (∃ dc, buildRoster u.school_id staff hist w.tz p.startDate p.endDate p.dutyTypes
        = some (dc, [])) ∧
      generateDutyRoster w p =
        (insertOutcome (w.insertReply []),
          [.selectStaff u.school_id, .selectHistory u.school_id, .insertRoster []]) ∧
      (∀ data, w.insertReply [] = .resolved (some data) none →
        (generateDutyRoster w p).1 =
          .success data.length ("Generated " ++ toString data.length ++ " duty assignments")) ∧
      (w.insertReply [] = .resolved (some []) none →
        (generateDutyRoster w p).1 = .success 0 "Generated 0 duty assignments") := by
  have hbuild : buildRoster u.school_id staff hist w.tz p.startDate p.endDate p.dutyTypes
      = some (startState staff hist p.dutyTypes) := by
    rw [buildRoster_eq_runSteps, htypes, stepList_nil_types]
    rfl
  obtain ⟨fin, hfin, hgen⟩ := generate_reaches_insert w p u staff hist err err' hu hs hne hh
  rw [hbuild] at hfin
  cases Option.some.inj hfin
  have hgen' : generateDutyRoster w p =
      (insertOutcome (w.insertReply []),
        [.selectStaff u.school_id, .selectHistory u.school_id, .insertRoster []]) := hgen
  refine ⟨⟨_, hbuild⟩, hgen', ?_, ?_⟩
  · intro data hd
    rw [hgen', hd]
    rfl
  · intro hd
    rw [hgen', hd]
    rfl

/-- C13 on the example world, for the week from 2024-01-01. -/
theorem C13_empty_duty_types_witness :
    (∃ dc, buildRoster "school" exampleStaff (some exampleHistory) 180 19723 19729 []
        = some (dc, [])) ∧
      generateDutyRoster exampleWorld ⟨19723, 19729, []⟩ =
        (insertOutcome (exampleWorld.insertReply []),
          [.selectStaff "school", .selectHistory "school", .insertRoster []]) ∧
      (∀ data, exampleWorld.insertReply [] = .resolved (some data) none →
        (generateDutyRoster exampleWorld ⟨19723, 19729, []⟩).1 =
          .success data.length ("Generated " ++ toString data.length ++ " duty assignments")) ∧
      (exampleWorld.insertReply [] = .resolved (some []) none →
        (generateDutyRoster exampleWorld ⟨19723, 19729, []⟩).1 =
          .success 0 "Generated 0 duty assignments") :=
  C13_empty_duty_types exampleWorld ⟨19723, 19729, []⟩ ⟨"school"⟩ exampleStaff
    (some exampleHistory) none none rfl rfl rfl (by decide) rfl

/-! ## Order of the batch -/

theorem getElem?_stepList (days : List Int) (types : List DutyType) (i j : Nat)
    (d : Int) (t : DutyType) (hd : days[i]? = some d) (ht : types[j]? = some t) :
    (stepList days types)[i * types.length + j]? = some (d, t) := by
  have hj : j < types.length := by
    rcases Nat.lt_or_ge j types.length with h | h
    · exact h
    · rw [List.getElem?_eq_none h] at ht
      cases ht
  induction days generalizing i with
  | nil => simp at hd
  | cons d' ds ih =>
    rw [stepList_cons]
    cases i with
    | zero =>
      simp only [List.getElem?_cons_zero, Option.some.injEq] at hd
      subst hd
      rw [Nat.zero_mul, Nat.zero_add, List.getElem?_append_left (by simpa using hj)]
      simp [ht]
    | succ i =>
      simp only [List.getElem?_cons_succ] at hd
      have hidx : (i + 1) * types.length + j = (i * types.length + j) + types.length := by
        rw [Nat.succ_mul]
        omega
      rw [hidx, List.getElem?_append_right (by simp)]
      simp only [List.length_map, Nat.add_sub_cancel]
      exact ih i hd

theorem stepList_dates_sorted (days : List Int) (types : List DutyType)
    (hdays : days.Pairwise (fun a b => a ≤ b)) :
    (stepList days types).Pairwise (fun a b => a.1 ≤ b.1) := by
  induction days with
  | nil => simp [stepList]
  | cons d ds ih =>
    rw [stepList_cons]
    rw [List.pairwise_cons] at hdays
    rw [List.pairwise_append]
    refine ⟨?_, ih hdays.2, ?_⟩
    · rw [List.pairwise_map]
      exact List.pairwise_of_forall (fun _ _ => Int.le_refl _)
    · intro a ha b hb
      simp only [List.mem_map] at ha
      obtain ⟨t, -, rfl⟩ := ha
      exact hdays.1 b.1 ((mem_stepList ds types b).mp hb).1

/-! ## Working days east of UTC -/

theorem getWeekdaysLoop_east (tz : Int) (h0 : 0 ≤ tz) (h1 : tz < 1440) (endDate : Int)
    (n : Nat) (d : Int) (dates : List Int) (hn : n = (endDate - d + 1).toNat) :
    getWeekdaysLoop tz (newDate endDate) n (newDate d) dates =
      dates ++ ((List.range n).map (fun (i : Nat) => d + (i : Int))).filter isWorkingDay := by
  induction n generalizing d dates with
  | zero => simp [getWeekdaysLoop]
  | succ n ih =>
    have hle : newDate d ≤ newDate endDate := by
      unfold newDate MS_PER_DAY
      omega
    unfold getWeekdaysLoop
    rw [if_pos hle, nextDay_newDate, getDay_newDate tz h0 h1, toISODate_newDate,
      ih (d + 1) _ (by omega), List.range_succ_eq_map, List.map_cons, List.map_map]
    have hmap : ((fun i : Nat => d + (i : Int)) ∘ Nat.succ) = fun i : Nat => d + 1 + (i : Int) := by
      funext i
      simp only [Function.comp, Nat.succ_eq_add_one, Nat.cast_add, Nat.cast_one]
      omega
    rw [hmap]
    by_cases hw : weekdayOf d ≠ 0 ∧ weekdayOf d ≠ 6
    · have hb : isWorkingDay (d + ((0 : Nat) : Int)) = true := by
        simp only [Nat.cast_zero, Int.add_zero, isWorkingDay, decide_eq_true_eq]
        exact hw
      rw [if_pos hw, List.filter_cons_of_pos hb]
      simp
    · have hb : ¬ isWorkingDay (d + ((0 : Nat) : Int)) = true := by
        simp only [Nat.cast_zero, Int.add_zero, isWorkingDay, decide_eq_true_eq]
        exact hw
      rw [if_neg hw, List.filter_cons_of_neg hb]

/-- In a zone at or east of UTC (fixed offset below 24 hours) `getWeekdays` returns
the Monday-to-Friday days of the range, ascending. -/
theorem getWeekdays_east (tz : Int) (h0 : 0 ≤ tz) (h1 : tz < 1440) (startDate endDate : Int) :
    getWeekdays tz startDate endDate = (dayRange startDate endDate).filter isWorkingDay := by
  unfold getWeekdays dayRange
  rw [getWeekdaysLoop_east tz h0 h1 endDate _ startDate [] rfl]
  rfl

theorem mem_dayRange (startDate endDate x : Int) :
    x ∈ dayRange startDate endDate ↔ startDate ≤ x ∧ x ≤ endDate := by
  unfold dayRange
  simp only [List.mem_map, List.mem_range]
  constructor
  · rintro ⟨i, hi, rfl⟩
    omega
  · rintro ⟨h1, h2⟩
    exact ⟨(x - startDate).toNat, by omega, by omega⟩

/-- East of UTC: the returned dates are exactly the working days of the range. -/
theorem mem_getWeekdays_east (tz : Int) (h0 : 0 ≤ tz) (h1 : tz < 1440)
    (startDate endDate x : Int) :
    x ∈ getWeekdays tz startDate endDate ↔
      startDate ≤ x ∧ x ≤ endDate ∧ weekdayOf x ≠ 0 ∧ weekdayOf x ≠ 6 := by
  rw [getWeekdays_east tz h0 h1, List.mem_filter, mem_dayRange]
  simp only [isWorkingDay, decide_eq_true_eq]
  constructor
  · rintro ⟨⟨a, b⟩, c⟩
    exact ⟨a, b, c⟩
  · rintro ⟨a, b, c⟩
    exact ⟨⟨a, b⟩, c⟩

/-- The table entries of the four known duty types, and for every other string that
is not the name of a member of `Object.prototype` the window 07:00 to 08:00 and the
location `School Compound`. -/
theorem duty_metadata :
    (getDutyTimes "morning_duty" = .own ⟨"07:00", "08:00"⟩ ∧
      getDutyLocation "morning_duty" = .own "Main Gate") ∧
    (getDutyTimes "lunch_duty" = .own ⟨"12:00", "13:00"⟩ ∧
      getDutyLocation "lunch_duty" = .own "Dining Hall") ∧
    (getDutyTimes "games_duty" = .own ⟨"15:00", "16:00"⟩ ∧
      getDutyLocation "games_duty" = .own "Sports Field") ∧
    (getDutyTimes "closing_duty" = .own ⟨"16:00", "17:00"⟩ ∧
      getDutyLocation "closing_duty" = .own "Main Gate") ∧
    (∀ t : DutyType, t ≠ "morning_duty" → t ≠ "lunch_duty" → t ≠ "games_duty" →
      t ≠ "closing_duty" → t ∉ objectPrototypeNames →
      getDutyTimes t = .own ⟨"07:00", "08:00"⟩ ∧
        getDutyLocation t = .own "School Compound") := by
  refine ⟨by decide, by decide, by decide, by decide, ?_⟩
  intro t h1 h2 h3 h4 hn
  have hp : t ≠ "__proto__" := by
    intro h
    apply hn
    rw [h]
    decide
  simp [getDutyTimes, getDutyLocation, lookupKey, orDefault, dutyTimesTable,
    dutyLocationsTable, h1, h2, h3, h4, hn, hp]

/-- A duty type that names a member of `Object.prototype` gets that member from both
lookups, never the default. -/
theorem duty_metadata_inherited (t : DutyType) (h : t ∈ objectPrototypeNames) :
    getDutyTimes t = .inherited t ∧ getDutyLocation t = .inherited t := by
  simp only [objectPrototypeNames, List.mem_cons, List.mem_singleton, List.not_mem_nil,
    or_false] at h
  rcases h with h | h | h | h | h | h | h | h | h | h | h | h <;> subst h <;> decide

/-- C14 at the failing input: for the duty type `constructor` (and likewise `toString`
and `__proto__`) the lookups find the member of `Object.prototype` of that name; the
fallback is not taken, `getDutyTimes` returns a value without `start` and `end`,
`getDutyLocation` returns a value that is not a string, and the record generated
for the duty type has no times and not the location `School Compound`. -/
theorem C14_inherited_member_returned :
    getDutyTimes "constructor" = .inherited "constructor" ∧
      (getDutyTimes "constructor").start = none ∧ (getDutyTimes "constructor").stop = none ∧
      getDutyLocation "constructor" = .inherited "constructor" ∧
      getDutyTimes "constructor" ≠ .own ⟨"07:00", "08:00"⟩ ∧
      getDutyLocation "constructor" ≠ .own "School Compound" ∧
      getDutyTimes "toString" = .inherited "toString" ∧
      getDutyLocation "toString" = .inherited "toString" ∧
      getDutyTimes "__proto__" = .inherited "__proto__" ∧
      getDutyLocation "__proto__" = .inherited "__proto__" ∧
      (buildRoster "school" exampleStaff none 180 19723 19723 ["constructor"]).map
          (fun st => st.2.map (fun r => (r.staff_id, r.start_time, r.end_time, r.location)))
        = some [("A", none, none, .inherited "constructor")] := by
  refine ⟨by decide, by decide, by decide, by decide, by decide, by decide, by decide,
    by decide, by decide, by decide, by decide⟩

/-- C15 at failing inputs, in a browser five hours west of UTC: Monday 2024-01-08
alone gives no date, and Friday 2024-01-05 to Monday 2024-01-08 gives the Friday
and the Saturday, where the working days of the range are the Friday and the
Monday. -/
theorem C15_working_days_western_zone :
    weekdayOf 19730 = 1 ∧ getWeekdays (-300) 19730 19730 = [] ∧
      getWeekdays (-300) 19727 19730 = [19727, 19728] ∧
      (dayRange 19727 19730).filter isWorkingDay = [19727, 19730] ∧
      getWeekdays 180 19727 19730 = [19727, 19730] := by
  decide

/-- C16: with a non-empty staff list the batch follows the dates in the order
`getWeekdays` returns them and, within a date, the duty types in the order of the
caller: with `k` duty types and `days` the list that `getWeekdays` returns, the
batch has `days.length * k` records and the record at index `i * k + j` has the
date `days[i]` and the duty type `dutyTypes[j]`. -/
theorem C16_batch_order (school : String) (staff : List StaffMember)
    (hist : Option (List DutyRecord)) (tz startDate endDate : Int) (types : List DutyType)
    (hstaff : staff ≠ []) :
    ∃ fin, buildRoster school staff hist tz startDate endDate types = some fin ∧
      fin.2.length = (getWeekdays tz startDate endDate).length * types.length ∧
      (∀ (i j : Nat) (d : Int) (t : DutyType),
        (getWeekdays tz startDate endDate)[i]? = some d → types[j]? = some t →
        ∃ r, fin.2[i * types.length + j]? = some r ∧ r.duty_date = d ∧ r.duty_type = t) := by
  obtain ⟨fin, hbuild, hslots, -, -⟩ :=
    buildRoster_spec school staff hist tz startDate endDate types hstaff
  refine ⟨fin, hbuild, ?_, ?_⟩
  · rw [← length_stepList, ← hslots, List.length_map]
  · intro i j d t hd ht
    have h := getElem?_stepList (getWeekdays tz startDate endDate) types i j d t hd ht
    rw [← hslots, List.getElem?_map] at h
    cases hr : fin.2[i * types.length + j]? with
    | none => rw [hr] at h; cases h
    | some r =>
      rw [hr] at h
      simp only [Option.map_some', Option.some.injEq, slotOf, Prod.mk.injEq] at h
      exact ⟨r, rfl, h.1, h.2⟩

/-- C16 on the example: the second day and the second duty type are at index 3. -/
theorem C16_batch_order_witness :
    ∃ fin, buildRoster "school" exampleStaff (some exampleHistory) 180 19723 19724
        ["lunch_duty", "games_duty"] = some fin ∧
      fin.2.length = (getWeekdays 180 19723 19724).length * ["lunch_duty", "games_duty"].length ∧
      (∀ (i j : Nat) (d : Int) (t : DutyType),
        (getWeekdays 180 19723 19724)[i]? = some d → ["lunch_duty", "games_duty"][j]? = some t →
        ∃ r, fin.2[i * ["lunch_duty", "games_duty"].length + j]? = some r ∧
          r.duty_date = d ∧ r.duty_type = t) :=
  C16_batch_order "school" exampleStaff (some exampleHistory) 180 19723 19724
    ["lunch_duty", "games_duty"] (by decide)

/-- The dates of the batch never decrease along the batch, the zone being a fixed
offset. -/
theorem batch_dates_ascending (school : String) (staff : List StaffMember)
    (hist : Option (List DutyRecord)) (tz startDate endDate : Int) (types : List DutyType)
    (hstaff : staff ≠ []) :
    ∃ fin, buildRoster school staff hist tz startDate endDate types = some fin ∧
      fin.2.Pairwise (fun a b => a.duty_date ≤ b.duty_date) := by
  obtain ⟨fin, hbuild, hslots, -, -⟩ :=
    buildRoster_spec school staff hist tz startDate endDate types hstaff
  refine ⟨fin, hbuild, ?_⟩
  have h := stepList_dates_sorted (getWeekdays tz startDate endDate) types
    ((getWeekdays_increasing tz startDate endDate).imp (fun h => Int.le_of_lt h))
  rw [← hslots, List.pairwise_map] at h
  exact h

/-- C17: every record of the batch that `generateDutyRoster` inserts has the school
scope of the current user, the id of a member of the fetched staff list, and the
start time, end time and location that `getDutyTimes` and `getDutyLocation` give for
its own duty type; the record of each step carries the id of the staff member
selected at that step. -/
theorem C17_record_fields (w : World) (p : Params) (u : UserProfile)
    (staff : List StaffMember) (hist : Option (List DutyRecord)) (err err' : Option JsError)
    (hu : w.currentUser = some u) (hs : w.staffReply = .resolved (some staff) err)
    (hne : staff ≠ []) (hh : w.historyReply = .resolved hist err') :
    ∃ fin : LoopState, (generateDutyRoster w p).2 =
        [.selectStaff u.school_id, .selectHistory u.school_id, .insertRoster fin.2] ∧
      (∀ r ∈ fin.2, r.school_id = u.school_id ∧ (∃ s ∈ staff, r.staff_id = s.id) ∧
        r.start_time = (getDutyTimes r.duty_type).start ∧
        r.end_time = (getDutyTimes r.duty_type).stop ∧
        r.location = getDutyLocation r.duty_type) ∧
      (∀ (pre post : List (Int × DutyType)) (date : Int) (t : DutyType),
        stepList (getWeekdays w.tz p.startDate p.endDate) p.dutyTypes
          = pre ++ (date, t) :: post →
        ∃ st sel r, runSteps u.school_id staff pre (startState staff hist p.dutyTypes) = some st ∧
          (sortBy (compareCounts st.1 t) staff).head? = some sel ∧ sel ∈ staff ∧
          fin.2[pre.length]? = some r ∧ r.staff_id = sel.id ∧ r.duty_type = t ∧
          r.duty_date = date) := by
  obtain ⟨fin, hbuild, hgen⟩ := generate_reaches_insert w p u staff hist err err' hu hs hne hh
  obtain ⟨fin', hbuild', -, hrecs, -⟩ :=
    buildRoster_spec u.school_id staff hist w.tz p.startDate p.endDate p.dutyTypes hne
  rw [hbuild] at hbuild'
  cases Option.some.inj hbuild'
  refine ⟨fin, by rw [hgen], ?_, ?_⟩
  · intro r hr
    obtain ⟨s, hs', hrs⟩ := hrecs r hr
    refine ⟨?_, ⟨s, hs', ?_⟩, ?_, ?_, ?_⟩ <;> rw [hrs] <;> rfl
  · intro pre post date t hsteps
    have htypes : ∀ q ∈ pre ++ (date, t) :: post, q.2 ∈ p.dutyTypes := by
      intro q hq
      rw [← hsteps] at hq
      exact ((mem_stepList _ _ q).mp hq).2
    obtain ⟨st, sel, fin2, rest, hrun, -, hlen, hhead, hmin, -, -, hall, hfin⟩ :=
      run_step u.school_id staff p.dutyTypes hne (startState staff hist p.dutyTypes)
        (ready_start staff p.dutyTypes hist) pre post date t htypes
    rw [← hsteps, ← buildRoster_eq_runSteps, hbuild] at hall
    cases Option.some.inj hall
    have hl : st.2.length = pre.length := by simpa [startState] using hlen
    refine ⟨st, sel, assignmentOf u.school_id sel date t, hrun, hhead, hmin.mem, ?_, rfl, rfl,
      rfl⟩
    rw [hfin, ← hl, List.getElem?_append_right (Nat.le_refl _)]
    simp

/-- C17 on the example: two working days, one duty type. -/
theorem C17_record_fields_witness :
    ∃ fin : LoopState, (generateDutyRoster exampleWorld ⟨19723, 19724, ["lunch_duty"]⟩).2 =
        [.selectStaff "school", .selectHistory "school", .insertRoster fin.2] ∧
      (∀ r ∈ fin.2, r.school_id = "school" ∧ (∃ s ∈ exampleStaff, r.staff_id = s.id) ∧
        r.start_time = (getDutyTimes r.duty_type).start ∧
        r.end_time = (getDutyTimes r.duty_type).stop ∧
        r.location = getDutyLocation r.duty_type) ∧
      (∀ (pre post : List (Int × DutyType)) (date : Int) (t : DutyType),
        stepList (getWeekdays 180 19723 19724) ["lunch_duty"] = pre ++ (date, t) :: post →
        ∃ st sel r, runSteps "school" exampleStaff pre
            (startState exampleStaff (some exampleHistory) ["lunch_duty"]) = some st ∧
          (sortBy (compareCounts st.1 t) exampleStaff).head? = some sel ∧ sel ∈ exampleStaff ∧
          fin.2[pre.length]? = some r ∧ r.staff_id = sel.id ∧ r.duty_type = t ∧
          r.duty_date = date) :=
  C17_record_fields exampleWorld ⟨19723, 19724, ["lunch_duty"]⟩ ⟨"school"⟩ exampleStaff
    (some exampleHistory) none none rfl rfl (by decide) rfl

/-- C18 at the failing input: two runs with the same staff list, the same history, the
same date range (Friday 2024-01-05 to Monday 2024-01-08) and the same duty types,
one in a browser at UTC+3 and one in a browser at UTC-5.  The first inserts records
for the Friday and the Monday, the second for the Friday and the Saturday. -/
theorem C18_batch_depends_on_zone :
    westernWorld.currentUser = exampleWorld.currentUser ∧
      westernWorld.staffReply = exampleWorld.staffReply ∧
      westernWorld.historyReply = exampleWorld.historyReply ∧
      (insertedBatch (generateDutyRoster exampleWorld ⟨19727, 19730, ["lunch_duty"]⟩).2).map
          (fun b => b.map (fun r => (r.duty_date, r.staff_id)))
        = some [(19727, "B"), (19730, "B")] ∧
      (insertedBatch (generateDutyRoster westernWorld ⟨19727, 19730, ["lunch_duty"]⟩).2).map
          (fun b => b.map (fun r => (r.duty_date, r.staff_id)))
        = some [(19727, "B"), (19728, "B")] ∧
      weekdayOf 19728 = 6 := by
  refine ⟨rfl, rfl, rfl, by decide, by decide, by decide⟩

/-! ## Phone numbers -/

theorem startsWith_iff (s pre : List Char) :
    startsWith s pre = true ↔ ∃ rest, s = pre ++ rest := by
  induction pre generalizing s with
  | nil => simp [startsWith]
  | cons p pre ih =>
    cases s with
    | nil => simp [startsWith]
    | cons c s =>
      simp only [startsWith, Bool.and_eq_true, beq_iff_eq, ih, List.cons_append,
        List.cons.injEq]
      constructor
      · rintro ⟨rfl, rest, rfl⟩
        exact ⟨rest, rfl, rfl⟩
      · rintro ⟨rest, rfl, rfl⟩
        exact ⟨rfl, rest, rfl⟩

theorem mem_digitsOf (phone : String) (x : Char) (hx : x ∈ digitsOf phone) :
    x.isDigit = true := by
  unfold digitsOf at hx
  exact (List.mem_filter.mp hx).2

theorem matchesKenyanMobile_iff (s : List Char) :
    matchesKenyanMobile s = true ↔
      ∃ c rest, s = '+' :: '2' :: '5' :: '4' :: c :: rest ∧ (c = '7' ∨ c = '1') ∧
        rest.length = 8 ∧ ∀ x ∈ rest, x.isDigit = true := by
  unfold matchesKenyanMobile
  rw [Bool.and_eq_true, startsWith_iff]
  constructor
  · rintro ⟨⟨tail, rfl⟩, h⟩
    simp only [List.cons_append, List.nil_append, List.drop_succ_cons, List.drop_zero] at h
    cases tail with
    | nil => simp at h
    | cons c rest =>
      simp only [Bool.and_eq_true, Bool.or_eq_true, beq_iff_eq, List.all_eq_true] at h
      exact ⟨c, rest, rfl, h.1.1, h.1.2, h.2⟩
  · rintro ⟨c, rest, rfl, hc, hlen, hdig⟩
    refine ⟨⟨c :: rest, rfl⟩, ?_⟩
    simp only [List.drop_succ_cons, List.drop_zero, Bool.and_eq_true, Bool.or_eq_true,
      beq_iff_eq, List.all_eq_true]
    exact ⟨⟨hc, hlen⟩, hdig⟩

theorem string_mk_inj (a b : List Char) : String.mk a = String.mk b ↔ a = b := by
  constructor
  · intro h
    exact congrArg String.data h
  · intro h
    rw [h]

/-- The four branches of `formatPhoneNumber` on a non-empty string, by the digits of
the string. -/
theorem formatPhoneNumber_branches (phone : String) (hne : phone ≠ "") :
    (∀ rest, digitsOf phone = '2' :: '5' :: '4' :: rest →
      formatPhoneNumber (some phone) = some (String.mk ('+' :: digitsOf phone))) ∧
    (∀ rest, digitsOf phone = '0' :: rest →
      formatPhoneNumber (some phone) = some (String.mk (['+', '2', '5', '4'] ++ rest))) ∧
    (∀ rest, digitsOf phone = '7' :: rest ∨ digitsOf phone = '1' :: rest →
      formatPhoneNumber (some phone) =
        some (String.mk (['+', '2', '5', '4'] ++ digitsOf phone))) ∧
    ((∀ rest, digitsOf phone ≠ '2' :: '5' :: '4' :: rest) →
      (∀ rest, digitsOf phone ≠ '0' :: rest) → (∀ rest, digitsOf phone ≠ '7' :: rest) →
      (∀ rest, digitsOf phone ≠ '1' :: rest) →
      formatPhoneNumber (some phone) = some (String.mk ('+' :: digitsOf phone))) := by
  refine ⟨?_, ?_, ?_, ?_⟩
  · intro rest h
    have h1 : startsWith (digitsOf phone) ['2', '5', '4'] = true :=
      (startsWith_iff _ _).mpr ⟨rest, h⟩
    simp only [formatPhoneNumber, hne, if_false, h1, if_true]
  · intro rest h
    have h1 : startsWith (digitsOf phone) ['2', '5', '4'] = false := by
      rw [h]; rfl
    have h2 : startsWith (digitsOf phone) ['0'] = true := (startsWith_iff _ _).mpr ⟨rest, h⟩
    simp only [formatPhoneNumber, hne, if_false, h1, h2, if_true]
    rw [h]
    simp
  · intro rest h
    have h1 : startsWith (digitsOf phone) ['2', '5', '4'] = false := by
      rcases h with h | h <;> rw [h] <;> rfl
    have h2 : startsWith (digitsOf phone) ['0'] = false := by
      rcases h with h | h <;> rw [h] <;> rfl
    have h3 : (startsWith (digitsOf phone) ['7'] || startsWith (digitsOf phone) ['1']) = true := by
      rcases h with h | h
      · rw [Bool.or_eq_true]
        exact Or.inl ((startsWith_iff _ _).mpr ⟨rest, h⟩)
      · rw [Bool.or_eq_true]
        exact Or.inr ((startsWith_iff _ _).mpr ⟨rest, h⟩)
    simp only [formatPhoneNumber, hne, if_false, h1, h2, h3, if_true]
    simp
  · intro n254 n0 n7 n1
    have h1 : startsWith (digitsOf phone) ['2', '5', '4'] = false := by
      rw [Bool.eq_false_iff]
      intro h
      obtain ⟨rest, hr⟩ := (startsWith_iff _ _).mp h
      exact n254 rest hr
    have h2 : startsWith (digitsOf phone) ['0'] = false := by
      rw [Bool.eq_false_iff]
      intro h
      obtain ⟨rest, hr⟩ := (startsWith_iff _ _).mp h
      exact n0 rest hr
    have h3 : startsWith (digitsOf phone) ['7'] = false := by
      rw [Bool.eq_false_iff]
      intro h
      obtain ⟨rest, hr⟩ := (startsWith_iff _ _).mp h
      exact n7 rest hr
    have h4 : startsWith (digitsOf phone) ['1'] = false := by
      rw [Bool.eq_false_iff]
      intro h
      obtain ⟨rest, hr⟩ := (startsWith_iff _ _).mp h
      exact n1 rest hr
    simp only [formatPhoneNumber, hne, if_false, h1, h2, h3, h4]
    simp

/-- C19: `formatPhoneNumber` returns null for a missing or empty phone; otherwise, with
`d` the digits of the input in order, it returns `+d` when `d` starts with 254,
`+254` and `d` without its first digit when `d` starts with 0, `+254d` when `d`
starts with 7 or 1, and `+d` in every other case; `0722123456` and `722123456`
both give `+254722123456`. -/
theorem C19_formatPhoneNumber :
    formatPhoneNumber none = none ∧ formatPhoneNumber (some "") = none ∧
    (∀ phone : String, phone ≠ "" →
      (∀ rest, digitsOf phone = '2' :: '5' :: '4' :: rest →
        formatPhoneNumber (some phone) = some (String.mk ('+' :: digitsOf phone))) ∧
      (∀ rest, digitsOf phone = '0' :: rest →
        formatPhoneNumber (some phone) = some (String.mk (['+', '2', '5', '4'] ++ rest))) ∧
      (∀ rest, digitsOf phone = '7' :: rest ∨ digitsOf phone = '1' :: rest →
        formatPhoneNumber (some phone) =
          some (String.mk (['+', '2', '5', '4'] ++ digitsOf phone))) ∧
      ((∀ rest, digitsOf phone ≠ '2' :: '5' :: '4' :: rest) →
        (∀ rest, digitsOf phone ≠ '0' :: rest) → (∀ rest, digitsOf phone ≠ '7' :: rest) →
        (∀ rest, digitsOf phone ≠ '1' :: rest) →
        formatPhoneNumber (some phone) = some (String.mk ('+' :: digitsOf phone)))) ∧
    formatPhoneNumber (some "0722123456") = some "+254722123456" ∧
    formatPhoneNumber (some "722123456") = some "+254722123456" := by
  exact ⟨rfl, by decide, formatPhoneNumber_branches, by decide, by decide⟩

/-- C19 on a local number written with spaces. -/
theorem C19_formatPhoneNumber_witness :
    formatPhoneNumber (some "0722 123 456") =
      some (String.mk (['+', '2', '5', '4'] ++ "722123456".toList)) :=
  (C19_formatPhoneNumber.2.2.1 "0722 123 456" (by decide)).2.1 "722123456".toList (by decide)

theorem isValidPhoneNumber_iff (phone : Option String) :
    isValidPhoneNumber phone = true ↔
      ∃ c rest, formatPhoneNumber phone =
          some (String.mk ('+' :: '2' :: '5' :: '4' :: c :: rest)) ∧
        (c = '7' ∨ c = '1') ∧ rest.length = 8 ∧ ∀ x ∈ rest, x.isDigit = true := by
  unfold isValidPhoneNumber
  cases h : formatPhoneNumber phone with
  | none => simp
  | some f =>
    simp only [matchesKenyanMobile_iff, Option.some.injEq]
    constructor
    · rintro ⟨c, rest, hl, hc, hlen, hdig⟩
      refine ⟨c, rest, ?_, hc, hlen, hdig⟩
      cases f with
      | mk data =>
        simp only [String.toList] at hl
        rw [hl]
    · rintro ⟨c, rest, rfl, hc, hlen, hdig⟩
      exact ⟨c, rest, rfl, hc, hlen, hdig⟩

/-- The accepted inputs by their digits: 254, then 7 or 1, then eight digits; or 0,
then 7 or 1, then eight digits; or 7 or 1, then eight digits. -/
theorem isValidPhoneNumber_iff_digits (phone : String) (hne : phone ≠ "") :
    isValidPhoneNumber (some phone) = true ↔
      ∃ c rest, (c = '7' ∨ c = '1') ∧ rest.length = 8 ∧
        (digitsOf phone = '2' :: '5' :: '4' :: c :: rest ∨ digitsOf phone = '0' :: c :: rest ∨
          digitsOf phone = c :: rest) := by
  rw [isValidPhoneNumber_iff]
  have hdig : ∀ x ∈ digitsOf phone, x.isDigit = true := mem_digitsOf phone
  obtain ⟨b1, b2, b3, b4⟩ := formatPhoneNumber_branches phone hne
  constructor
  · rintro ⟨c, rest, hf, hc, hlen, -⟩
    refine ⟨c, rest, hc, hlen, ?_⟩
    by_cases e1 : ∃ tail, digitsOf phone = '2' :: '5' :: '4' :: tail
    · obtain ⟨tail, ht⟩ := e1
      rw [b1 tail ht, Option.some.injEq, string_mk_inj, List.cons.injEq] at hf
      exact Or.inl hf.2
    · by_cases e2 : ∃ tail, digitsOf phone = '0' :: tail
      · obtain ⟨tail, ht⟩ := e2
        rw [b2 tail ht, Option.some.injEq, string_mk_inj] at hf
        simp only [List.cons_append, List.nil_append, List.cons.injEq, true_and] at hf
        right; left
        rw [ht, hf]
      · by_cases e3 : ∃ tail, digitsOf phone = '7' :: tail ∨ digitsOf phone = '1' :: tail
        · obtain ⟨tail, ht⟩ := e3
          rw [b3 tail ht, Option.some.injEq, string_mk_inj] at hf
          simp only [List.cons_append, List.nil_append, List.cons.injEq, true_and] at hf
          exact Or.inr (Or.inr hf)
        · rw [b4 (fun r hr => e1 ⟨r, hr⟩) (fun r hr => e2 ⟨r, hr⟩)
            (fun r hr => e3 ⟨r, Or.inl hr⟩) (fun r hr => e3 ⟨r, Or.inr hr⟩),
            Option.some.injEq, string_mk_inj, List.cons.injEq] at hf
          exact absurd ⟨c :: rest, hf.2⟩ e1
  · rintro ⟨c, rest, hc, hlen, h | h | h⟩
    · refine ⟨c, rest, ?_, hc, hlen, ?_⟩
      · rw [b1 _ h, h]
      · intro x hx
        exact hdig x (by rw [h]; simp [hx])
    · refine ⟨c, rest, ?_, hc, hlen, ?_⟩
      · rw [b2 _ h]
        rfl
      · intro x hx
        exact hdig x (by rw [h]; simp [hx])
    · refine ⟨c, rest, ?_, hc, hlen, ?_⟩
      · have h' : digitsOf phone = '7' :: rest ∨ digitsOf phone = '1' :: rest := by
          rcases hc with rfl | rfl
          · exact Or.inl h
          · exact Or.inr h
        rw [b3 _ h', h]
        rfl
      · intro x hx
        exact hdig x (by rw [h]; simp [hx])

/-- C20: `isValidPhoneNumber` is true exactly when the formatted number is `+254`,
then 7 or 1, then exactly eight more digits; an accepted number therefore
formats to `+` and exactly 12 digits that begin with 254; a missing phone and
the empty string are rejected. -/
theorem C20_isValidPhoneNumber :
    (∀ phone : Option String, isValidPhoneNumber phone = true ↔
      ∃ c rest, formatPhoneNumber phone =
          some (String.mk ('+' :: '2' :: '5' :: '4' :: c :: rest)) ∧
        (c = '7' ∨ c = '1') ∧ rest.length = 8 ∧ ∀ x ∈ rest, x.isDigit = true) ∧
    (∀ phone : Option String, isValidPhoneNumber phone = true →
      ∃ ds, formatPhoneNumber phone = some (String.mk ('+' :: ds)) ∧ ds.length = 12 ∧
        (∀ x ∈ ds, x.isDigit = true) ∧ ds.take 3 = ['2', '5', '4']) ∧
    isValidPhoneNumber none = false ∧ isValidPhoneNumber (some "") = false := by
  refine ⟨isValidPhoneNumber_iff, ?_, rfl, by decide⟩
  intro phone h
  obtain ⟨c, rest, hf, hc, hlen, hdig⟩ := (isValidPhoneNumber_iff phone).mp h
  refine ⟨'2' :: '5' :: '4' :: c :: rest, hf, by simp [hlen], ?_, rfl⟩
  intro x hx
  simp only [List.mem_cons] at hx
  rcases hx with rfl | rfl | rfl | rfl | hx
  · decide
  · decide
  · decide
  · rcases hc with rfl | rfl <;> decide
  · exact hdig x hx

/-- C20 on the local number `0722123456`. -/
theorem C20_isValidPhoneNumber_witness :
    ∃ ds, formatPhoneNumber (some "0722123456") = some (String.mk ('+' :: ds)) ∧
      ds.length = 12 ∧ (∀ x ∈ ds, x.isDigit = true) ∧ ds.take 3 = ['2', '5', '4'] :=
  C20_isValidPhoneNumber.2.1 (some "0722123456") (by decide)

/-! ## Permissions -/

/-- A role with a configured permission list never throws, and the answer is whether
the list contains `all` or the permission. -/
theorem hasPermission_of_configured (role perm : String) (ps : List String)
    (h : permissions role = some ps) :
    hasPermission role perm = some (ps.contains "all" || ps.contains perm) := by
  have hp : role ≠ "__proto__" := by
    intro hr
    rw [hr] at h
    have hnone : permissions "__proto__" = none := by decide
    rw [hnone] at h
    cases h
  simp [hasPermission, lookupKey, orDefault, hp, h]

/-- The answers of `hasPermission` for the configured roles, and for every other role
that is not the name of a member of `Object.prototype`. -/
theorem hasPermission_roles :
    (∀ perm : String, hasPermission "super_admin" perm = some true) ∧
    (∀ perm : String, hasPermission "teacher" perm = some true ↔
      perm = "students" ∨ perm = "academic") ∧
    (∀ perm : String, hasPermission "accountant" perm = some true ↔
      perm = "fees" ∨ perm = "finance") ∧
    (∀ perm : String, hasPermission "support" perm = some true ↔ perm = "students") ∧
    (∀ role perm : String, role ≠ "super_admin" → role ≠ "school_admin" → role ≠ "teacher" →
      role ≠ "accountant" → role ≠ "support" → role ∉ objectPrototypeNames →
      hasPermission role perm = some false) := by
  refine ⟨?_, ?_, ?_, ?_, ?_⟩
  · intro perm
    rw [hasPermission_of_configured "super_admin" perm ["all"] (by decide)]
    simp
  · intro perm
    rw [hasPermission_of_configured "teacher" perm ["students", "academic"] (by decide)]
    simp
  · intro perm
    rw [hasPermission_of_configured "accountant" perm ["fees", "finance"] (by decide)]
    simp
  · intro perm
    rw [hasPermission_of_configured "support" perm ["students"] (by decide)]
    simp
  · intro role perm h1 h2 h3 h4 h5 hn
    have hp : role ≠ "__proto__" := by
      intro h
      apply hn
      rw [h]
      decide
    simp [hasPermission, lookupKey, orDefault, permissions, h1, h2, h3, h4, h5, hn, hp]

/-- A role that names a member of `Object.prototype` makes `hasPermission` throw. -/
theorem hasPermission_inherited (role perm : String) (h : role ∈ objectPrototypeNames) :
    hasPermission role perm = none := by
  simp only [objectPrototypeNames, List.mem_cons, List.mem_singleton, List.not_mem_nil,
    or_false] at h
  rcases h with h | h | h | h | h | h | h | h | h | h | h | h <;> subst h <;> rfl

/-- C21 at the failing input: `constructor` is not one of the five configured roles,
and `hasPermission('constructor', 'students')` does not return false: the lookup
finds the inherited `Object.prototype.constructor`, which has no `includes`, and
the call throws a `TypeError`.  The same holds for `toString` and `__proto__`. -/
theorem C21_inherited_role_throws :
    permissions "constructor" = none ∧
      lookupKey permissions "constructor" = .inherited "constructor" ∧
      hasPermission "constructor" "students" = none ∧
      hasPermission "constructor" "students" ≠ some false ∧
      hasPermission "toString" "students" = none ∧
      hasPermission "__proto__" "students" = none ∧
      hasPermission "librarian" "students" = some false := by
  refine ⟨by decide, by decide, by decide, by decide, by decide, by decide, by decide⟩

/-! ## Generated numbers -/

/-- On an empty table the number is the prefix, the two-digit year and `0001`. -/
theorem generateNumber_empty_table :
    generateNumber (.resolved (some []) none) 2026 "learner" = some "STD260001" ∧
      generateNumber (.resolved none none) 2026 "learner" = some "STD260001" ∧
      generateNumber (.resolved (some []) none) 2026 "staff" = some "STF260001" := by
  decide

/-- C22 at the failing input: in 2026, after `STD260001` (what `generateNumber` returns
on an empty table) the code returns `STD26260002`, because the digits it parses
include the two year digits; the claim asks for `STD260002`.  The next call then
returns `STD2626260003`. -/
theorem C22_sequence_includes_year :
    generateNumber (.resolved (some []) none) 2026 "learner" = some "STD260001" ∧
      generateNumber (.resolved (some [some "STD260001"]) none) 2026 "learner"
        = some "STD26260002" ∧
      generateNumber (.resolved (some [some "STD260001"]) none) 2026 "learner"
        ≠ some "STD260002" ∧
      generateNumber (.resolved (some [some "STD26260002"]) none) 2026 "learner"
        = some "STD2626260003" ∧
      generateNumber (.resolved (some [some "STF260041"]) none) 2026 "staff"
        = some "STF26260042" := by
  decide

/-! ## The two phone checks -/

/-- C23 at failing inputs: the local check of `students.js` accepts `0000000000`, which
`isValidPhoneNumber` of `config.js` rejects, and rejects `722123456`, which
`config.js` accepts. -/
theorem C23_phone_checks_differ :
    Students.isValidPhoneNumber (some "0000000000") = true ∧
      isValidPhoneNumber (some "0000000000") = false ∧
      Students.isValidPhoneNumber (some "722123456") = false ∧
      isValidPhoneNumber (some "722123456") = true ∧
      formatPhoneNumber (some "722123456") = some "+254722123456" := by
  decide

/-- The local check by the number of digits. -/
theorem Students.isValidPhoneNumber_length (phone : String) (hne : phone ≠ "") :
    Students.isValidPhoneNumber (some phone) = true ↔
      10 ≤ (digitsOf phone).length ∧ (digitsOf phone).length ≤ 13 := by
  simp [Students.isValidPhoneNumber, hne]

/-- Where the two checks agree: a number that `config.js` accepts is accepted by the
local check unless it has nine digits (the form without the leading zero). -/
theorem config_valid_local_valid (phone : String) (hne : phone ≠ "")
    (h : isValidPhoneNumber (some phone) = true) (h9 : (digitsOf phone).length ≠ 9) :
    Students.isValidPhoneNumber (some phone) = true := by
  rw [Students.isValidPhoneNumber_length phone hne]
  obtain ⟨c, rest, -, hlen, hd | hd | hd⟩ := (isValidPhoneNumber_iff_digits phone hne).mp h
  · rw [hd]
    simp [hlen]
  · rw [hd]
    simp [hlen]
  · rw [hd] at h9
    simp [hlen] at h9

/-! ## The spread over a run -/

theorem countOf_same_id (dc : DutyCounts) (u : DutyType) (x y : StaffMember)
    (h : x.id = y.id) : countOf dc u x = countOf dc u y := by
  unfold countOf
  rw [h]

theorem minOver_eq_of_isFirstMin {α : Type} (f : α → Nat) (l : List α) (s : α)
    (h : IsFirstMin f l s) : f s = minOver f l := by
  have hl : l ≠ [] := List.ne_nil_of_mem h.mem
  obtain ⟨x, hx, hfx⟩ := minOver_attained f l hl
  have h1 := h.le x hx
  have h2 := minOver_le f l s h.mem
  omega

/-- One assignment step changes the spread of the stored counts of any duty type to at
most the larger of 1 and its previous value, and raises it only from 0 to 1. -/
theorem spread_step (staff : List StaffMember) (dc : DutyCounts) (t : DutyType)
    (s : StaffMember) (hmin : IsFirstMin (countOf dc t) staff s) (u : DutyType) :
    spread (incrementCount dc s.id t) u staff ≤ max 1 (spread dc u staff) ∧
      (spread dc u staff < spread (incrementCount dc s.id t) u staff →
        spread dc u staff = 0 ∧ spread (incrementCount dc s.id t) u staff = 1) := by
  have hl : staff ≠ [] := List.ne_nil_of_mem hmin.mem
  have hpt := countOf_incrementCount dc s.id t u
  have hle := minOver_le_maxOver (countOf dc u) staff
  have hmono := minOver_mono (countOf dc u) (countOf (incrementCount dc s.id t) u) staff
    (fun x _ => countOf_le_incrementCount dc s.id t u x)
  obtain ⟨y, hy, hgy⟩ := maxOver_attained (countOf (incrementCount dc s.id t) u) staff hl
  have hle' := minOver_le_maxOver (countOf (incrementCount dc s.id t) u) staff
  have hbound : countOf (incrementCount dc s.id t) u y ≤
      max (maxOver (countOf dc u) staff) (minOver (countOf dc u) staff + 1) := by
    rw [hpt y]
    by_cases hc : y.id = s.id ∧ u = t ∧ (readCount dc s.id t).isSome = true
    · rw [if_pos hc]
      have h1 : countOf dc u y = countOf dc u s := countOf_same_id dc u y s hc.1
      have h2 : countOf dc u s = minOver (countOf dc u) staff := by
        rw [hc.2.1]
        exact minOver_eq_of_isFirstMin _ _ _ hmin
      rw [h1, h2]
      exact Nat.le_max_right _ _
    · rw [if_neg hc]
      exact Nat.le_trans (le_maxOver _ _ y hy) (Nat.le_max_left _ _)
  unfold spread
  rw [hgy] at hbound
  constructor
  · omega
  · intro hlt
    omega

/-- Over any run of steps the spread of the stored counts of every duty type stays at
most the larger of 1 and its value at the start. -/
theorem spread_runSteps (school : String) (staff : List StaffMember) (types : List DutyType)
    (hstaff : staff ≠ []) (steps : List (Int × DutyType)) (st : LoopState)
    (hready : Ready staff types st.1) (htypes : ∀ p ∈ steps, p.2 ∈ types) :
    ∃ fin, runSteps school staff steps st = some fin ∧
      ∀ u, spread fin.1 u staff ≤ max 1 (spread st.1 u staff) := by
  induction steps generalizing st with
  | nil => exact ⟨st, rfl, fun u => Nat.le_max_right _ _⟩
  | cons p ps ih =>
    have hp : p.2 ∈ types := htypes p (List.mem_cons_self _ _)
    obtain ⟨s, -, hmin, hstep⟩ :=
      assignDuty_eq school staff st p.1 p.2 hstaff (fun x hx => (hready x hx).1)
        (uniform_of_ready staff types st.1 hready p.2 hp)
    obtain ⟨fin, hrun, hfin⟩ :=
      ih (incrementCount st.1 s.id p.2, st.2 ++ [assignmentOf school s p.1 p.2])
        (ready_incrementCount staff types st.1 s.id p.2 hready)
        (fun q hq => htypes q (List.mem_cons_of_mem _ hq))
    refine ⟨fin, ?_, ?_⟩
    · rw [runSteps_cons, hstep]
      exact hrun
    · intro u
      have h1 := hfin u
      have h2 := (spread_step staff st.1 p.2 s hmin u).1
      simp only at h1
      omega

/-- The stored counts: for every duty type, after every assignment step of a run the
spread (maximum stored count minus minimum stored count over the staff) is at most
the larger of 1 and the spread before the first assignment, and a step raises the
spread only from 0 to 1.  For the duty types other than `__proto__` the stored
count is the number of duties, by `counts_track_assignments`. -/
theorem spread_bounded (school : String) (staff : List StaffMember)
    (hist : Option (List DutyRecord)) (tz startDate endDate : Int) (types : List DutyType)
    (pre post : List (Int × DutyType)) (date : Int) (t : DutyType) (hstaff : staff ≠ [])
    (hsteps : stepList (getWeekdays tz startDate endDate) types = pre ++ (date, t) :: post) :
    ∃ st st1, runSteps school staff pre (startState staff hist types) = some st ∧
      assignDuty school staff st date t = some st1 ∧
      runSteps school staff (pre ++ [(date, t)]) (startState staff hist types) = some st1 ∧
      ∀ u, spread st1.1 u staff ≤ max 1 (spread (startState staff hist types).1 u staff) ∧
        (spread st.1 u staff < spread st1.1 u staff →
          spread st.1 u staff = 0 ∧ spread st1.1 u staff = 1) := by
  have htypes : ∀ p ∈ pre ++ (date, t) :: post, p.2 ∈ types := by
    intro p hp
    rw [← hsteps] at hp
    exact ((mem_stepList _ _ p).mp hp).2
  obtain ⟨st, s, fin, rest, hrun, -, -, -, hmin, hstep, hrun1, -, -⟩ :=
    run_step school staff types hstaff (startState staff hist types)
      (ready_start staff types hist) pre post date t htypes
  obtain ⟨st', hrun', hbound⟩ :=
    spread_runSteps school staff types hstaff pre (startState staff hist types)
      (ready_start staff types hist) (fun p hp => htypes p (List.mem_append_left _ hp))
  rw [hrun] at hrun'
  cases Option.some.inj hrun'
  refine ⟨st, _, hrun, hstep, hrun1, ?_⟩
  intro u
  have h1 := spread_step staff st.1 t s hmin u
  have h2 := hbound u
  refine ⟨?_, h1.2⟩
  have h3 := h1.1
  simp only at h3 ⊢
  omega

/-- C25 at the failing input: staff A, B, C with distinct ids and no history, the
working days 2024-01-01 to 2024-01-03 and the single duty type `__proto__`.  The
numbers of duties of that type (history plus generated records) of A, B, C are
0, 0, 0 before the run and 1, 0, 0 then 2, 0, 0 then 3, 0, 0 after the steps: the
spread is 0, 1, 2, 3, above the larger of 1 and the initial spread 0. -/
theorem C25_proto_spread_grows :
    (exampleStaff.map (fun s => s.id)).Nodup ∧
      (List.range 4).map (fun k =>
          (runSteps "school" exampleStaff
              ((stepList (getWeekdays 180 19723 19725) ["__proto__"]).take k)
              (startState exampleStaff none ["__proto__"])).map
            (fun st => exampleStaff.map (fun s =>
              historyCount none s.id "__proto__" + assignedCount st.2 s.id "__proto__")))
        = [some [0, 0, 0], some [1, 0, 0], some [2, 0, 0], some [3, 0, 0]] ∧
      (List.range 4).map (fun k =>
          (runSteps "school" exampleStaff
              ((stepList (getWeekdays 180 19723 19725) ["__proto__"]).take k)
              (startState exampleStaff none ["__proto__"])).map
            (fun st =>
              maxOver (fun s => historyCount none s.id "__proto__" +
                assignedCount st.2 s.id "__proto__") exampleStaff -
              minOver (fun s => historyCount none s.id "__proto__" +
                assignedCount st.2 s.id "__proto__") exampleStaff))
        = [some 0, some 1, some 2, some 3] := by
  refine ⟨by decide, by decide, by decide⟩

/-! ## Independence of the duty types -/

theorem isFirstMin_congr {α : Type} (key key' : α → Nat) (l : List α) (s : α)
    (hkey : ∀ x ∈ l, key x = key' x) (h : IsFirstMin key l s) : IsFirstMin key' l s := by
  have hs := hkey s h.mem
  obtain ⟨before, after, rfl, hb, ha⟩ := h
  refine ⟨before, after, rfl, ?_, ?_⟩
  · intro x hx
    rw [← hs, ← hkey x (by simp [hx])]
    exact hb x hx
  · intro x hx
    rw [← hs, ← hkey x (by simp [hx])]
    exact ha x hx

theorem filter_stepList_single (days : List Int) (types : List DutyType) (t : DutyType)
    (hone : types.count t = 1) :
    (stepList days types).filter (fun p => decide (p.2 = t)) = stepList days [t] := by
  induction days with
  | nil => rfl
  | cons d ds ih =>
    rw [stepList_cons, stepList_cons, List.filter_append, ih, List.filter_map]
    have hf : List.filter ((fun p : Int × DutyType => decide (p.2 = t)) ∘ fun u => (d, u)) types
        = [t] := by
      have : ((fun p : Int × DutyType => decide (p.2 = t)) ∘ fun u => (d, u))
          = fun u => decide (u = t) := rfl
      rw [this, List.filter_eq, hone]
      rfl
    rw [hf]

/-- The steps of one duty type see only the counters of that type: a run over all
requested types and a run over the steps of `t` alone, started from counters that
agree on `t`, generate the same records for `t`. -/
theorem runSteps_project (school : String) (staff : List StaffMember) (types : List DutyType)
    (t : DutyType) (hstaff : staff ≠ []) (steps : List (Int × DutyType)) (st st' : LoopState)
    (hready : Ready staff types st.1) (hready' : Ready staff [t] st'.1)
    (htypes : ∀ p ∈ steps, p.2 ∈ types)
    (hrel : ∀ x ∈ staff, readCount st.1 x.id t = readCount st'.1 x.id t) :
    ∃ fin fin' tail tail', runSteps school staff steps st = some fin ∧
      runSteps school staff (steps.filter (fun p => decide (p.2 = t))) st' = some fin' ∧
      fin.2 = st.2 ++ tail ∧ fin'.2 = st'.2 ++ tail' ∧
      tail.filter (fun r => decide (r.duty_type = t)) = tail' := by
  induction steps generalizing st st' with
  | nil => exact ⟨st, st', [], [], rfl, rfl, by simp, by simp, rfl⟩
  | cons p ps ih =>
    have hp : p.2 ∈ types := htypes p (List.mem_cons_self _ _)
    obtain ⟨s, -, hmin, hstep⟩ :=
      assignDuty_eq school staff st p.1 p.2 hstaff (fun x hx => (hready x hx).1)
        (uniform_of_ready staff types st.1 hready p.2 hp)
    have hready1 := ready_incrementCount staff types st.1 s.id p.2 hready
    by_cases hpt : p.2 = t
    · have hkey : ∀ x ∈ staff, countOf st.1 p.2 x = countOf st'.1 p.2 x := by
        intro x hx
        unfold countOf
        rw [hpt, hrel x hx]
      obtain ⟨s', -, hmin', hstep'⟩ :=
        assignDuty_eq school staff st' p.1 p.2 hstaff (fun x hx => (hready' x hx).1)
          (uniform_of_ready staff [t] st'.1 hready' p.2 (by simp [hpt]))
      have hs : s = s' := (isFirstMin_congr _ _ staff s hkey hmin).unique hmin'
      subst hs
      have hready1' : Ready staff [t] (incrementCount st'.1 s.id p.2) :=
        ready_incrementCount staff [t] st'.1 s.id p.2 hready'
      have hrel1 : ∀ x ∈ staff,
          readCount (incrementCount st.1 s.id p.2) x.id t =
            readCount (incrementCount st'.1 s.id p.2) x.id t := by
        intro x hx
        rw [readCount_incrementCount, readCount_incrementCount, hrel x hx]
      obtain ⟨fin, fin', tail, tail', hrun, hrun', hfin, hfin', htail⟩ :=
        ih (incrementCount st.1 s.id p.2, st.2 ++ [assignmentOf school s p.1 p.2])
          (incrementCount st'.1 s.id p.2, st'.2 ++ [assignmentOf school s p.1 p.2])
          hready1 hready1' (fun q hq => htypes q (List.mem_cons_of_mem _ hq)) hrel1
      refine ⟨fin, fin', assignmentOf school s p.1 p.2 :: tail,
        assignmentOf school s p.1 p.2 :: tail', ?_, ?_, ?_, ?_, ?_⟩
      · rw [runSteps_cons, hstep]
        exact hrun
      · have hf : List.filter (fun p => decide (p.2 = t)) (p :: ps)
            = p :: List.filter (fun p => decide (p.2 = t)) ps := by
          rw [List.filter_cons_of_pos (by simpa using hpt)]
        rw [hf, runSteps_cons, hstep']
        exact hrun'
      · rw [hfin]; simp
      · rw [hfin']; simp
      · have hrt : (assignmentOf school s p.1 p.2).duty_type = t := hpt
        rw [List.filter_cons_of_pos (by simpa using hrt), htail]
    · have hrel1 : ∀ x ∈ staff,
          readCount (incrementCount st.1 s.id p.2) x.id t = readCount st'.1 x.id t := by
        intro x hx
        rw [readCount_incrementCount, ← hrel x hx]
        have hne : ¬ (x.id = s.id ∧ t = p.2) := fun h => hpt h.2.symm
        cases readCount st.1 x.id t <;> simp [hne]
      obtain ⟨fin, fin', tail, tail', hrun, hrun', hfin, hfin', htail⟩ :=
        ih (incrementCount st.1 s.id p.2, st.2 ++ [assignmentOf school s p.1 p.2]) st'
          hready1 hready' (fun q hq => htypes q (List.mem_cons_of_mem _ hq)) hrel1
      refine ⟨fin, fin', assignmentOf school s p.1 p.2 :: tail, tail', ?_, ?_, ?_, hfin', ?_⟩
      · rw [runSteps_cons, hstep]
        exact hrun
      · rw [List.filter_cons_of_neg (by simpa using hpt)]
        exact hrun'
      · rw [hfin]; simp
      · have hrt : ¬ (assignmentOf school s p.1 p.2).duty_type = t := hpt
        rw [List.filter_cons_of_neg (by simpa using hrt), htail]

/-- C26: for a duty type `t` that occurs exactly once in `dutyTypes`, the records of the
batch with duty type `t`, in order, are the batch generated from the same school
scope, staff, history, time zone and date range with `dutyTypes = [t]`.  (Pairwise
distinct staff ids are not needed for this.) -/
theorem C26_type_independence (school : String) (staff : List StaffMember)
    (hist : Option (List DutyRecord)) (tz startDate endDate : Int) (types : List DutyType)
    (t : DutyType) (hstaff : staff ≠ []) (hone : types.count t = 1) :
    ∃ fin fin', buildRoster school staff hist tz startDate endDate types = some fin ∧
      buildRoster school staff hist tz startDate endDate [t] = some fin' ∧
      fin.2.filter (fun r => decide (r.duty_type = t)) = fin'.2 := by
  have ht : t ∈ types := List.count_pos_iff.mp (by omega)
  have hrel : ∀ x ∈ staff, readCount (startState staff hist types).1 x.id t =
      readCount (startState staff hist [t]).1 x.id t := by
    intro x hx
    unfold startState
    rw [readCount_start, readCount_start]
    have : x.id ∈ staff.map (fun s => s.id) := List.mem_map.mpr ⟨x, hx, rfl⟩
    simp [this, ht]
  obtain ⟨fin, fin', tail, tail', hrun, hrun', hfin, hfin', htail⟩ :=
    runSteps_project school staff types t hstaff
      (stepList (getWeekdays tz startDate endDate) types)
      (startState staff hist types) (startState staff hist [t])
      (ready_start staff types hist) (ready_start staff [t] hist)
      (fun p hp => ((mem_stepList _ _ p).mp hp).2) hrel
  rw [filter_stepList_single _ _ _ hone] at hrun'
  refine ⟨fin, fin', ?_, ?_, ?_⟩
  · rw [buildRoster_eq_runSteps]
    exact hrun
  · rw [buildRoster_eq_runSteps]
    exact hrun'
  · have h1 : fin.2 = tail := by simpa [startState] using hfin
    have h2 : fin'.2 = tail' := by simpa [startState] using hfin'
    rw [h1, h2, htail]

/-- C26 on the example: lunch duty among two duty types over one week. -/
theorem C26_type_independence_witness :
    ∃ fin fin', buildRoster "school" exampleStaff (some exampleHistory) 180 19723 19729
        ["games_duty", "lunch_duty"] = some fin ∧
      buildRoster "school" exampleStaff (some exampleHistory) 180 19723 19729 ["lunch_duty"]
        = some fin' ∧
      fin.2.filter (fun r => decide (r.duty_type = "lunch_duty")) = fin'.2 :=
  C26_type_independence "school" exampleStaff (some exampleHistory) 180 19723 19729
    ["games_duty", "lunch_duty"] "lunch_duty" (by decide) (by decide)

/-! ## Round robin from equal counts -/

theorem ids_ne_of_nodup (front back : List StaffMember) (b : StaffMember)
    (hids : ((front ++ b :: back).map (fun s => s.id)).Nodup) :
    ∀ x ∈ front ++ back, x.id ≠ b.id := by
  intro x hx hxb
  rw [List.map_append, List.map_cons] at hids
  have h := (List.nodup_cons.mp (List.nodup_middle.mp hids)).1
  apply h
  rw [← List.map_append, ← hxb]
  exact List.mem_map.mpr ⟨x, hx, rfl⟩

theorem getElem?_length_append (front back : List StaffMember) (b : StaffMember) :
    (front ++ b :: back)[front.length]? = some b := by
  rw [List.getElem?_append_right (Nat.le_refl _)]
  simp

/-- From counters for a duty type `t` other than `__proto__` that are `c + 1` on the
first part of the staff list and `c` on the rest, the records for `t` go to the
staff in list order, starting after the first part and wrapping around. -/
theorem roundRobin_run (school : String) (staff : List StaffMember) (types : List DutyType)
    (t : DutyType) (hproto : t ≠ "__proto__") (hids : (staff.map (fun s => s.id)).Nodup)
    (steps : List (Int × DutyType)) (st : LoopState) (c : Nat)
    (front back : List StaffMember) (hsplit : staff = front ++ back) (hback : back ≠ [])
    (hfront : ∀ x ∈ front, countOf st.1 t x = c + 1)
    (hrest : ∀ x ∈ back, countOf st.1 t x = c)
    (hready : Ready staff types st.1) (htypes : ∀ p ∈ steps, p.2 ∈ types) :
    ∃ fin tail, runSteps school staff steps st = some fin ∧ fin.2 = st.2 ++ tail ∧
      ∀ (j : Nat) (r : DutyAssignment),
        (tail.filter (fun r => decide (r.duty_type = t)))[j]? = some r →
        ∃ s, staff[(front.length + j) % staff.length]? = some s ∧ r.staff_id = s.id := by
  have hstaff : staff ≠ [] := by
    rw [hsplit]
    simp [hback]
  induction steps generalizing st c front back with
  | nil => exact ⟨st, [], rfl, by simp, by simp⟩
  | cons p ps ih =>
    have hp : p.2 ∈ types := htypes p (List.mem_cons_self _ _)
    obtain ⟨s, -, hmin, hstep⟩ :=
      assignDuty_eq school staff st p.1 p.2 hstaff (fun x hx => (hready x hx).1)
        (uniform_of_ready staff types st.1 hready p.2 hp)
    have hready1 := ready_incrementCount staff types st.1 s.id p.2 hready
    have hpt := countOf_incrementCount st.1 s.id p.2 t
    by_cases hty : p.2 = t
    · cases back with
      | nil => exact absurd rfl hback
      | cons b back' =>
        have hb : IsFirstMin (countOf st.1 t) staff b := by
          refine ⟨front, back', hsplit, ?_, ?_⟩
          · intro x hx
            rw [hfront x hx, hrest b (List.mem_cons_self _ _)]
            omega
          · intro x hx
            rw [hrest x (List.mem_cons_of_mem _ hx), hrest b (List.mem_cons_self _ _)]
        have hs : s = b := by
          rw [hty] at hmin
          exact hmin.unique hb
        subst hs
        have hne : ∀ x ∈ front ++ back', x.id ≠ s.id := by
          apply ids_ne_of_nodup front back' s
          rw [← hsplit]
          exact hids
        have hnew_s : countOf (incrementCount st.1 s.id p.2) t s = c + 1 := by
          have hsome : (readCount st.1 s.id p.2).isSome = true :=
            (hready s hmin.mem).2 p.2 hp (by rw [hty]; exact hproto)
          rw [hpt s, if_pos ⟨rfl, hty.symm, hsome⟩, hrest s (List.mem_cons_self _ _)]
        have hnew_other : ∀ x ∈ front ++ back',
            countOf (incrementCount st.1 s.id p.2) t x = countOf st.1 t x := by
          intro x hx
          rw [hpt x, if_neg (fun h => hne x hx h.1)]
        have hidx : staff[front.length]? = some s := by
          rw [hsplit]
          exact getElem?_length_append front back' s
        have hlen : staff.length = front.length + (back'.length + 1) := by
          rw [hsplit]
          simp
        have hrt : (assignmentOf school s p.1 p.2).duty_type = t := hty
        by_cases hb' : back' = []
        · subst hb'
          obtain ⟨fin, tail, hrun, hfin, hrr⟩ :=
            ih (incrementCount st.1 s.id p.2,
                st.2 ++ [assignmentOf school s p.1 p.2]) (c + 1) [] staff
              (by simp) hstaff (by simp)
              (by
                intro x hx
                rw [hsplit] at hx
                rcases List.mem_append.mp hx with hx | hx
                · rw [hnew_other x (by simp [hx]), hfront x hx]
                · simp only [List.mem_singleton] at hx
                  subst hx
                  exact hnew_s)
              hready1 (fun q hq => htypes q (List.mem_cons_of_mem _ hq))
          refine ⟨fin, assignmentOf school s p.1 p.2 :: tail, ?_, ?_, ?_⟩
          · rw [runSteps_cons, hstep]
            exact hrun
          · rw [hfin]; simp
          · intro j r hj
            rw [List.filter_cons_of_pos (by simpa using hrt)] at hj
            cases j with
            | zero =>
              simp only [List.getElem?_cons_zero, Option.some.injEq] at hj
              subst hj
              refine ⟨s, ?_, rfl⟩
              rw [Nat.add_zero, Nat.mod_eq_of_lt (by omega)]
              exact hidx
            | succ j =>
              simp only [List.getElem?_cons_succ] at hj
              obtain ⟨s', hs', hr'⟩ := hrr j r hj
              refine ⟨s', ?_, hr'⟩
              have : (front.length + (j + 1)) % staff.length = (0 + j) % staff.length := by
                have h1 : front.length + (j + 1) = staff.length + j := by
                  simp only [List.length_nil] at hlen
                  omega
                rw [h1, Nat.add_mod_left, Nat.zero_add]
              simpa [this] using hs'
        · obtain ⟨fin, tail, hrun, hfin, hrr⟩ :=
            ih (incrementCount st.1 s.id p.2,
                st.2 ++ [assignmentOf school s p.1 p.2]) c (front ++ [s]) back'
              (by rw [hsplit]; simp) hb'
              (by
                intro x hx
                rcases List.mem_append.mp hx with hx | hx
                · rw [hnew_other x (by simp [hx]), hfront x hx]
                · simp only [List.mem_singleton] at hx
                  subst hx
                  exact hnew_s)
              (by
                intro x hx
                rw [hnew_other x (by simp [hx]), hrest x (List.mem_cons_of_mem _ hx)])
              hready1 (fun q hq => htypes q (List.mem_cons_of_mem _ hq))
          refine ⟨fin, assignmentOf school s p.1 p.2 :: tail, ?_, ?_, ?_⟩
          · rw [runSteps_cons, hstep]
            exact hrun
          · rw [hfin]; simp
          · intro j r hj
            rw [List.filter_cons_of_pos (by simpa using hrt)] at hj
            cases j with
            | zero =>
              simp only [List.getElem?_cons_zero, Option.some.injEq] at hj
              subst hj
              refine ⟨s, ?_, rfl⟩
              rw [Nat.add_zero, Nat.mod_eq_of_lt (by omega)]
              exact hidx
            | succ j =>
              simp only [List.getElem?_cons_succ] at hj
              obtain ⟨s', hs', hr'⟩ := hrr j r hj
              refine ⟨s', ?_, hr'⟩
              have : front.length + (j + 1) = (front ++ [s]).length + j := by
                simp
                omega
              rw [this]
              exact hs'
    · have hsame : ∀ x, countOf (incrementCount st.1 s.id p.2) t x
          = countOf st.1 t x := by
        intro x
        rw [hpt x, if_neg (fun h => hty h.2.1.symm)]
      obtain ⟨fin, tail, hrun, hfin, hrr⟩ :=
        ih (incrementCount st.1 s.id p.2,
            st.2 ++ [assignmentOf school s p.1 p.2]) c front back hsplit hback
          (fun x hx => by rw [hsame x, hfront x hx])
          (fun x hx => by rw [hsame x, hrest x hx])
          hready1 (fun q hq => htypes q (List.mem_cons_of_mem _ hq))
      refine ⟨fin, assignmentOf school s p.1 p.2 :: tail, ?_, ?_, ?_⟩
      · rw [runSteps_cons, hstep]
        exact hrun
      · rw [hfin]; simp
      · intro j r hj
        have hrt : ¬ (assignmentOf school s p.1 p.2).duty_type = t := hty
        rw [List.filter_cons_of_neg (by simpa using hrt)] at hj
        exact hrr j r hj

/-- For a duty type `t` other than `__proto__`: when the staff ids are pairwise distinct
and all staff members start the run with the same count for `t`, the records of
the batch with duty type `t` go round robin in staff-list order: the `k`-th of them
(from 0) is assigned to `staff[k mod n]`. -/
theorem round_robin (school : String) (staff : List StaffMember)
    (hist : Option (List DutyRecord)) (tz startDate endDate : Int) (types : List DutyType)
    (t : DutyType) (c : Nat) (hstaff : staff ≠ []) (hproto : t ≠ "__proto__")
    (hids : (staff.map (fun s => s.id)).Nodup)
    (hsame : ∀ x ∈ staff, countOf (startState staff hist types).1 t x = c) :
    ∃ fin, buildRoster school staff hist tz startDate endDate types = some fin ∧
      ∀ (k : Nat) (r : DutyAssignment),
        (fin.2.filter (fun r => decide (r.duty_type = t)))[k]? = some r →
        ∃ s, staff[k % staff.length]? = some s ∧ r.staff_id = s.id := by
  obtain ⟨fin, tail, hrun, hfin, hrr⟩ :=
    roundRobin_run school staff types t hproto hids
      (stepList (getWeekdays tz startDate endDate) types) (startState staff hist types) c
      [] staff rfl hstaff (by simp) hsame (ready_start staff types hist)
      (fun p hp => ((mem_stepList _ _ p).mp hp).2)
  refine ⟨fin, ?_, ?_⟩
  · rw [buildRoster_eq_runSteps]
    exact hrun
  · intro k r hk
    have h1 : fin.2 = tail := by simpa [startState] using hfin
    rw [h1] at hk
    obtain ⟨s, hs, hr⟩ := hrr k r hk
    exact ⟨s, by simpa using hs, hr⟩

/-- The round robin on the example, evaluated: five working days of lunch duty go to
A, B, C, A, B. -/
theorem roundRobin_example :
    (buildRoster "school" exampleStaff none 180 19723 19729 ["lunch_duty", "games_duty"]).map
        (fun st => (st.2.filter (fun r => decide (r.duty_type = "lunch_duty"))).map
          (fun r => r.staff_id))
      = some ["A", "B", "C", "A", "B"] := by
  decide

/-- C24 at the failing input: staff A, B, C with distinct ids and no history, so that
all three start with the same count, the working days 2024-01-01 to 2024-01-03 and
the single duty type `__proto__`.  The records go to A, A, A; round robin in
staff-list order is A, B, C. -/
theorem C24_proto_no_rotation :
    (exampleStaff.map (fun s => s.id)).Nodup ∧
      exampleStaff.map (fun s => historyCount none s.id "__proto__") = [0, 0, 0] ∧
      (buildRoster "school" exampleStaff none 180 19723 19725 ["__proto__"]).map
          (fun st => (st.2.filter (fun r => decide (r.duty_type = "__proto__"))).map
            (fun r => r.staff_id))
        = some ["A", "A", "A"] ∧
      (List.range 3).map (fun k => (exampleStaff[k % exampleStaff.length]?).map (fun s => s.id))
        = [some "A", some "B", some "C"] := by
  refine ⟨by decide, by decide, by decide, by decide⟩

end Roster
